import Mathlib

/-!
Verification of the simple block filesystem (src/filesystem.c).

The C program keeps a global `FileSystem` struct: a fixed pool of
`MAX_BLOCKS` blocks of `BLOCK_SIZE` bytes, a boolean occupancy map, a
fixed table of `MAX_FILES` file entries, and three cached counters.
The shallow embedding below models:
  - block storage as a function `Nat → Nat → Nat` (block index, byte
    position, byte value); all arithmetic is on `Nat` (every C `size_t`
    expression in the modelled paths is guarded well below 2^64, so no
    wrap-around is reachable: sizes are checked against 1 MiB and
    offsets against the file size before any addition);
  - the occupancy map as `Nat → Bool` and the file table as
    `Nat → FileEntry`;
  - a file entry's `blocks[MAX_BLOCKS]` array by the list of its first
    `num_blocks` cells, which is the only part of the array the C code
    ever reads (the C code reads `blocks[i]` only for `i < num_blocks`,
    or for `i < allocated` during the rollback in `create_file`, where
    the list passed to `free_blocks` is exactly the allocated prefix);
  - C strings (`const char *data`) as `List Nat` of byte values, with
    `strlen` as the length of the prefix before the first zero byte;
  - filenames as `String`, with `strncpy` truncation to
    `MAX_FILENAME - 1` characters;
  - each operation returns its observable result (error kind from the
    distinct diagnostic paths, reported byte counts, the bytes copied
    into the caller's buffer, the appended terminator byte and the C
    `int` return value) together with the post-state.
-/

namespace SimpleFS

/-! ## Constants (filesystem.c lines 13-18) -/

def BLOCK_SIZE : Nat := 512
def MAX_FILES : Nat := 100
def MAX_STORAGE : Nat := 1024 * 1024
def MAX_BLOCKS : Nat := MAX_STORAGE / BLOCK_SIZE
def MAX_FILENAME : Nat := 256
def MAX_FILE_SIZE : Nat := 1024 * 1024

/-! ## Data model (filesystem.c lines 21-40) -/

/-- One slot of the file table (`FileEntry`, lines 21-27).  `blocks`
models the first `num_blocks` cells of the C array `blocks[MAX_BLOCKS]`. -/
structure FileEntry where
  filename : String
  size : Nat
  num_blocks : Nat
  blocks : List Nat
  in_use : Bool
deriving DecidableEq

/-- The whole filesystem state (`FileSystem`, lines 30-37). -/
@[ext]
structure FileSystem where
  blocks : Nat → Nat → Nat
  block_map : Nat → Bool
  file_table : Nat → FileEntry
  num_files : Nat
  used_blocks : Nat
  total_storage : Nat

/-- The cleared file-table slot produced by `init_filesystem` and
`delete_file` (`in_use = false`, empty name, size and block count 0). -/
def empty_entry : FileEntry :=
  { filename := "", size := 0, num_blocks := 0, blocks := [], in_use := false }

/-- `init_filesystem` (lines 56-82): zero all blocks, free all map
entries, clear the table and the three counters. -/
def init_filesystem : FileSystem :=
  { blocks := fun _ _ => 0
    block_map := fun _ => false
    file_table := fun _ => empty_entry
    num_files := 0
    used_blocks := 0
    total_storage := 0 }

/-! ## Helpers -/

/-- C `strlen` on a byte list: length of the prefix before the first 0. -/
def strLen (data : List Nat) : Nat := (data.takeWhile (fun x => x != 0)).length

/-- `strncpy(dst, filename, MAX_FILENAME - 1)` followed by forcing a
terminator at index `MAX_FILENAME - 1`: the stored name is the first
`MAX_FILENAME - 1` characters of the argument. -/
def trunc_name (fname : String) : String := String.mk (fname.data.take (MAX_FILENAME - 1))

/-- Point update of the occupancy map. -/
def set_map (m : Nat → Bool) (b : Nat) (v : Bool) : Nat → Bool :=
  fun j => if j = b then v else m j

/-- `find_file` (lines 89-97): first in-use slot whose stored name
compares equal (`strcmp == 0`) to the argument; we return its index. -/
def find_file (fname : String) (fs : FileSystem) : Option Nat :=
  (List.range MAX_FILES).find? fun i =>
    (fs.file_table i).in_use && ((fs.file_table i).filename == fname)

/-! ## Allocator (filesystem.c lines 105-169) -/

/-- The inner run test of `allocate_blocks` (lines 120-126): blocks
`i, i+1, ..., i+num_blocks-1` are all in range and free. -/
def seq_free_check (m : Nat → Bool) (num_blocks i : Nat) : Bool :=
  (List.range num_blocks).all fun j => decide (i + j < MAX_BLOCKS) && !(m (i + j))

/-- The outer scan of the consecutive-run strategy (lines 117-139):
ascending scan for the first free block that starts a free run. -/
def find_consecutive (m : Nat → Bool) (num_blocks : Nat) : Option Nat :=
  (List.range MAX_BLOCKS).find? fun i => !(m i) && seq_free_check m num_blocks i

/-- The scattered fallback (lines 142-150): ascending scan collecting
free blocks, marking each occupied, until `num_blocks` are taken or the
pool is exhausted.  The first argument enumerates the remaining block
indices, the second counts how many blocks are still needed. -/
def alloc_scatter : List Nat → Nat → FileSystem → List Nat × FileSystem
  | _, 0, fs => ([], fs)
  | [], _ + 1, fs => ([], fs)
  | i :: rest, k + 1, fs =>
    if fs.block_map i then alloc_scatter rest (k + 1) fs
    else
      let fs1 : FileSystem :=
        { fs with block_map := set_map fs.block_map i true
                  used_blocks := fs.used_blocks + 1 }
      let r := alloc_scatter rest k fs1
      (i :: r.1, r.2)

/-- Mark every block of a list occupied (the assignment loop of the
consecutive branch, lines 130-133). -/
def mark_list (m : Nat → Bool) (bl : List Nat) : Nat → Bool :=
  bl.foldl (fun acc b => set_map acc b true) m

/-- The state after the scattered fallback takes one free block `i`
(lines 145-148 of filesystem.c): mark it occupied, bump the counter. -/
def scatter_mark (fs : FileSystem) (i : Nat) : FileSystem :=
  { fs with block_map := set_map fs.block_map i true
            used_blocks := fs.used_blocks + 1 }

/-- `allocate_blocks` (lines 105-153).  Returns the list of the block
indices actually allocated (the C code additionally stores them into the
caller's `block_list` array and returns their count, which is the length
of the returned list) together with the updated state. -/
def allocate_blocks (num_blocks : Nat) (fs : FileSystem) : List Nat × FileSystem :=
  if num_blocks = 0 ∨ num_blocks > MAX_BLOCKS then ([], fs)
  else if fs.used_blocks + num_blocks > MAX_BLOCKS then ([], fs)
  else
    match find_consecutive fs.block_map num_blocks with
    | some i =>
      let bl := (List.range num_blocks).map fun j => i + j
      (bl, { fs with block_map := mark_list fs.block_map bl
                     used_blocks := fs.used_blocks + num_blocks })
    | none => alloc_scatter (List.range MAX_BLOCKS) num_blocks fs

/-- The effect of freeing one occupied block (lines 163-166): clear the
map bit, zero the block content, decrement the counter. -/
def free_mark (fs : FileSystem) (b : Nat) : FileSystem :=
  { fs with block_map := set_map fs.block_map b false
            blocks := fun j p => if j = b then 0 else fs.blocks j p
            used_blocks := fs.used_blocks - 1 }

/-- One iteration of `free_blocks` (lines 161-168): if the index is in
range and occupied, free it, zero its content and decrement the counter;
otherwise do nothing. -/
def free_one (fs : FileSystem) (b : Nat) : FileSystem :=
  if b < MAX_BLOCKS ∧ fs.block_map b = true then free_mark fs b
  else fs

/-- `free_blocks` (lines 160-169): process the first `num_blocks`
entries of the given block list. -/
def free_blocks (num_blocks : Nat) (block_list : List Nat) (fs : FileSystem) : FileSystem :=
  (block_list.take num_blocks).foldl free_one fs

/-! ## Byte-range walks (the while loops of write_file and read_file) -/

/-- One `memcpy` into a block (lines 313-315): bytes
`pos, ..., pos + chunk.length - 1` of block `b` become `chunk`. -/
def write_chunk (store : Nat → Nat → Nat) (b pos : Nat) (chunk : List Nat) :
    Nat → Nat → Nat :=
  fun b2 p =>
    if b2 = b ∧ pos ≤ p ∧ p < pos + chunk.length then chunk.getD (p - pos) 0
    else store b2 p

/-- The per-iteration chunk bound of both walks (lines 307-310 and
376-379): `remaining`, clipped to the room left in the current block. -/
def chunk_size (pos remaining : Nat) : Nat :=
  if pos + remaining > BLOCK_SIZE then BLOCK_SIZE - pos else remaining

/-- The write walk (lines 303-320): while data remains and listed blocks
remain, copy `min (remaining, BLOCK_SIZE - pos)` bytes into the current
block, then move to the next block at position 0.  Returns the updated
storage and the number of bytes written. -/
def write_loop : (Nat → Nat → Nat) → List Nat → Nat → List Nat →
    (Nat → Nat → Nat) × Nat
  | store, [], _, _ => (store, 0)
  | store, _ :: _, _, [] => (store, 0)
  | store, b :: rest, pos, d :: ds =>
    let data := d :: ds
    let c := chunk_size pos data.length
    let r := write_loop (write_chunk store b pos (data.take c)) rest 0 (data.drop c)
    (r.1, c + r.2)

/-- The read walk (lines 372-389): same chunking as the write walk,
collecting bytes from storage into the output buffer. -/
def read_loop (store : Nat → Nat → Nat) : List Nat → Nat → Nat → List Nat
  | [], _, _ => []
  | b :: rest, pos, n =>
    if n = 0 then []
    else
      let c := chunk_size pos n
      ((List.range c).map fun k => store b (pos + k)) ++ read_loop store rest 0 (n - c)

/-! ## Operations and their observable results -/

/-- Distinct failure diagnostics of `create_file` (lines 177-240), in
the order the C code checks them.  The C function reports each by a
distinct message and returns -1. -/
inductive CreateErr where
  | invalidName | invalidSize | sizeLimitExceeded | alreadyExists
  | tableFull | outOfSpace | noFreeSlot | allocFailed
deriving DecidableEq

/-- Failure diagnostics of `write_file` (lines 264-292).  `invalidParams`
is the NULL-pointer check (line 265), which has no realisable counterpart
in the model since the model has no null byte lists; it is kept for the
record.  `invalidOffset` is the `offset > size` check (line 278),
`outOfBounds` the `offset + data_len > size` check (line 287). -/
inductive WriteErr where
  | invalidParams | notFound | invalidOffset | outOfBounds
deriving DecidableEq

/-- Failure diagnostics of `read_file` (lines 335-353).  `invalidParams`
is the NULL/zero-size check (line 336; the `size == 0` part is
realisable), `invalidOffset` the `offset >= size` check (line 349). -/
inductive ReadErr where
  | invalidParams | notFound | invalidOffset
deriving DecidableEq

/-- Failure diagnostic of `delete_file` (lines 403-431). -/
inductive DeleteErr where
  | notFound
deriving DecidableEq

/-- Observable outcome of a successful `write_file`: the byte count the
function computes and reports (line 322), and the C return value, which
is 0 on success (line 324). -/
structure WriteResult where
  bytes_written : Nat
  retval : Int
deriving DecidableEq

/-- Observable outcome of a successful `read_file`: the bytes copied
into the caller's buffer (`buffer[0..bytes_read)`), the terminator byte
the function appends at `buffer[bytes_read]` (line 391), and the C
return value, which is 0 on success (line 395), not the byte count. -/
structure ReadResult where
  bytes : List Nat
  terminator : Nat
  retval : Int
deriving DecidableEq

/-- `create_file` (lines 177-255). -/
def create_file (fname : String) (size : Nat) (fs : FileSystem) :
    Except CreateErr Unit × FileSystem :=
  if fname.length = 0 then (.error .invalidName, fs)
  else if size = 0 then (.error .invalidSize, fs)
  else if size > MAX_FILE_SIZE then (.error .sizeLimitExceeded, fs)
  else if (find_file fname fs).isSome then (.error .alreadyExists, fs)
  else if fs.num_files ≥ MAX_FILES then (.error .tableFull, fs)
  else
    let num_blocks := (size + BLOCK_SIZE - 1) / BLOCK_SIZE
    if fs.used_blocks + num_blocks > MAX_BLOCKS then (.error .outOfSpace, fs)
    else
      match (List.range MAX_FILES).find? (fun i => !(fs.file_table i).in_use) with
      | none => (.error .noFreeSlot, fs)
      | some file_index =>
        let r := allocate_blocks num_blocks fs
        if r.1.length < num_blocks then
          (.error .allocFailed, free_blocks r.1.length r.1 r.2)
        else
          let entry : FileEntry :=
            { filename := trunc_name fname, size := size, num_blocks := num_blocks
              blocks := r.1, in_use := true }
          (.ok (), { r.2 with
                      file_table := fun i => if i = file_index then entry
                                             else r.2.file_table i
                      num_files := r.2.num_files + 1
                      total_storage := r.2.total_storage + size })

/-- `write_file` (lines 264-325). -/
def write_file (fname : String) (offset : Nat) (data : List Nat) (fs : FileSystem) :
    Except WriteErr WriteResult × FileSystem :=
  match find_file fname fs with
  | none => (.error .notFound, fs)
  | some idx =>
    let file := fs.file_table idx
    if offset > file.size then (.error .invalidOffset, fs)
    else
      let data_len := strLen data
      if offset + data_len > file.size then (.error .outOfBounds, fs)
      else
        let start_block := offset / BLOCK_SIZE
        let start_pos := offset % BLOCK_SIZE
        let r := write_loop fs.blocks ((file.blocks.take file.num_blocks).drop start_block)
                   start_pos (data.take data_len)
        (.ok { bytes_written := r.2, retval := 0 }, { fs with blocks := r.1 })

/-- `read_file` (lines 335-396). -/
def read_file (fname : String) (offset size : Nat) (fs : FileSystem) :
    Except ReadErr ReadResult × FileSystem :=
  if size = 0 then (.error .invalidParams, fs)
  else
    match find_file fname fs with
    | none => (.error .notFound, fs)
    | some idx =>
      let file := fs.file_table idx
      if offset ≥ file.size then (.error .invalidOffset, fs)
      else
        let bytes_to_read := if offset + size > file.size then file.size - offset else size
        let start_block := offset / BLOCK_SIZE
        let start_pos := offset % BLOCK_SIZE
        let out := read_loop fs.blocks ((file.blocks.take file.num_blocks).drop start_block)
                     start_pos bytes_to_read
        (.ok { bytes := out, terminator := 0, retval := 0 }, fs)

/-- `delete_file` (lines 403-431). -/
def delete_file (fname : String) (fs : FileSystem) :
    Except DeleteErr Unit × FileSystem :=
  match find_file fname fs with
  | none => (.error .notFound, fs)
  | some idx =>
    let file := fs.file_table idx
    let fs1 := free_blocks file.num_blocks file.blocks fs
    (.ok (), { fs1 with
                total_storage := fs1.total_storage - file.size
                num_files := fs1.num_files - 1
                file_table := fun i => if i = idx then empty_entry else fs1.file_table i })

/-- `list_files` (lines 436-458): the (name, size) pairs of the in-use
entries in slot order, plus the three cached counters as printed by the
summary line.  Read-only. -/
def list_files (fs : FileSystem) : List (String × Nat) × Nat × Nat × Nat :=
  (((List.range MAX_FILES).filter fun i => (fs.file_table i).in_use).map
      (fun i => ((fs.file_table i).filename, (fs.file_table i).size)),
   fs.num_files, fs.total_storage, fs.used_blocks)

/-! ## Reachability -/

/-- One command of the command loop, as handed to the core operations. -/
inductive Op where
  | create (fname : String) (size : Nat)
  | write (fname : String) (offset : Nat) (data : List Nat)
  | read (fname : String) (offset : Nat) (size : Nat)
  | delete (fname : String)
  | list

/-- State transition of one operation (results discarded). -/
def apply_op (fs : FileSystem) : Op → FileSystem
  | .create n s => (create_file n s fs).2
  | .write n o d => (write_file n o d fs).2
  | .read n o s => (read_file n o s fs).2
  | .delete n => (delete_file n fs).2
  | .list => fs

/-- State after running a command sequence from `init_filesystem`. -/
def run_ops (ops : List Op) : FileSystem := ops.foldl apply_op init_filesystem

/-- A state is reachable if some command sequence produces it. -/
def Reachable (fs : FileSystem) : Prop := ∃ ops, run_ops ops = fs

/-! ## Fresh recounts and the master invariant -/

/-- Fresh recount of occupied blocks: number of `true` entries of the
occupancy map over the whole pool. -/
def count_occupied (m : Nat → Bool) : Nat :=
  ((List.range MAX_BLOCKS).map fun b => if m b then 1 else 0).sum

/-- Fresh recount of live files: number of in-use table slots. -/
def live_count (fs : FileSystem) : Nat :=
  ((List.range MAX_FILES).map fun i => if (fs.file_table i).in_use then 1 else 0).sum

/-- Fresh recount of `used_blocks`: sum of `num_blocks` over in-use slots. -/
def live_blocks_sum (fs : FileSystem) : Nat :=
  ((List.range MAX_FILES).map fun i =>
    if (fs.file_table i).in_use then (fs.file_table i).num_blocks else 0).sum

/-- Fresh recount of `total_storage`: sum of `size` over in-use slots. -/
def live_size_sum (fs : FileSystem) : Nat :=
  ((List.range MAX_FILES).map fun i =>
    if (fs.file_table i).in_use then (fs.file_table i).size else 0).sum

/-- Well-formedness of one in-use table slot. -/
def EntryOK (fs : FileSystem) (i : Nat) : Prop :=
  (fs.file_table i).blocks.length = (fs.file_table i).num_blocks ∧
  (fs.file_table i).blocks.Nodup ∧
  (∀ b ∈ (fs.file_table i).blocks, b < MAX_BLOCKS ∧ fs.block_map b = true) ∧
  (fs.file_table i).size ≤ BLOCK_SIZE * (fs.file_table i).num_blocks

/-- The master invariant: cached counters agree with fresh recounts,
in-use entries are well formed and pairwise block-disjoint, and every
free block is zeroed. -/
structure WF (fs : FileSystem) : Prop where
  used_eq : fs.used_blocks = count_occupied fs.block_map
  files_eq : fs.num_files = live_count fs
  storage_eq : fs.total_storage = live_size_sum fs
  blocks_sum_eq : live_blocks_sum fs = fs.used_blocks
  map_lt : ∀ b, fs.block_map b = true → b < MAX_BLOCKS
  entries : ∀ i, i < MAX_FILES → (fs.file_table i).in_use = true → EntryOK fs i
  disjoint : ∀ i j, i < MAX_FILES → j < MAX_FILES → i ≠ j →
    (fs.file_table i).in_use = true → (fs.file_table j).in_use = true →
    ∀ b ∈ (fs.file_table i).blocks, b ∉ (fs.file_table j).blocks
  free_zero : ∀ b, fs.block_map b = false → ∀ p, fs.blocks b p = 0

/-! ## Spec-side allocator characterisation (from the spec's words, for
the refinement statement of claim C4: primary strategy "first run of n
consecutive free blocks", fallback "first n free blocks in ascending
order") -/

/-- From the spec: blocks `i, ..., i + n - 1` form a run of `n` free
blocks inside the pool. -/
def SpecRunAt (m : Nat → Bool) (n i : Nat) : Prop :=
  ∀ j, j < n → i + j < MAX_BLOCKS ∧ m (i + j) = false

/-- From the spec: all free block indices in ascending order. -/
def spec_free_list (m : Nat → Bool) : List Nat :=
  (List.range MAX_BLOCKS).filter fun b => !(m b)

/-- From the spec: the position of the first ascending run of `n`
consecutive free blocks, scanning block indices in ascending order. -/
def spec_first_run (m : Nat → Bool) (n : Nat) : Option Nat :=
  (List.range MAX_BLOCKS).find? fun i => seq_free_check m n i

/-- From the spec (claim C4's reference behaviour): take the first
ascending run of `n` consecutive free blocks if one exists, otherwise
the first `n` free blocks in ascending order. -/
def spec_allocate (m : Nat → Bool) (n : Nat) : List Nat :=
  match spec_first_run m n with
  | some i => (List.range n).map fun j => i + j
  | none => (spec_free_list m).take n

/-- What a successful allocation guarantees: exactly `n` fresh, in-range,
duplicate-free block indices, exactly those marked occupied, counter
bumped by `n`, everything else untouched. -/
structure AllocOut (fs : FileSystem) (n : Nat) (r : List Nat × FileSystem) : Prop where
  len : r.1.length = n
  nodup : r.1.Nodup
  mem_lt : ∀ b ∈ r.1, b < MAX_BLOCKS
  mem_free : ∀ b ∈ r.1, fs.block_map b = false
  map_eq : ∀ j, r.2.block_map j = if j ∈ r.1 then true else fs.block_map j
  used : r.2.used_blocks = fs.used_blocks + n
  blocks_eq : r.2.blocks = fs.blocks
  table_eq : r.2.file_table = fs.file_table
  nf_eq : r.2.num_files = fs.num_files
  ts_eq : r.2.total_storage = fs.total_storage


/-! ## Generic list helpers -/

lemma sum_map_congr (l : List Nat) (f g : Nat → Nat) (h : ∀ x ∈ l, f x = g x) :
    (l.map f).sum = (l.map g).sum := by
  induction l with
  | nil => rfl
  | cons a t ih =>
    simp only [List.map_cons, List.sum_cons]
    rw [h a (List.mem_cons_self a t), ih fun x hx => h x (List.mem_cons_of_mem a hx)]

lemma sum_map_zero (l : List Nat) (f : Nat → Nat) (h : ∀ x ∈ l, f x = 0) :
    (l.map f).sum = 0 := by
  rw [sum_map_congr l f (fun _ => 0) h]
  simp

/-- Changing a summand function at one point of a duplicate-free list
changes the sum by exactly the difference at that point. -/
lemma sum_map_update (l : List Nat) (hl : l.Nodup) (f g : Nat → Nat) (idx : Nat)
    (hmem : idx ∈ l) (hagree : ∀ x ∈ l, x ≠ idx → g x = f x) :
    (l.map g).sum + f idx = (l.map f).sum + g idx := by
  induction l with
  | nil => cases hmem
  | cons a t ih =>
    simp only [List.map_cons, List.sum_cons]
    rcases List.mem_cons.mp hmem with h1 | h1
    · subst h1
      have hnotin : idx ∉ t := (List.nodup_cons.mp hl).1
      have hsum : (t.map g).sum = (t.map f).sum := by
        refine sum_map_congr t g f fun x hx => ?_
        exact hagree x (List.mem_cons_of_mem idx hx) (fun hh => hnotin (hh ▸ hx))
      omega
    · have ha : g a = f a := by
        refine hagree a (List.mem_cons_self a t) fun h => ?_
        exact (List.nodup_cons.mp hl).1 (h ▸ h1)
      have := ih (List.nodup_cons.mp hl).2 h1
        (fun x hx hne => hagree x (List.mem_cons_of_mem a hx) hne)
      omega

lemma find?_append_some {α : Type} (p : α → Bool) (l1 l2 : List α) (x : α)
    (h : l1.find? p = some x) : (l1 ++ l2).find? p = some x := by
  induction l1 with
  | nil => simp [List.find?] at h
  | cons a t ih =>
    simp only [List.cons_append, List.find?]
    cases hp : p a with
    | true => simpa [List.find?, hp] using h
    | false =>
      simp only [List.find?, hp] at h
      exact ih h

lemma find?_append_none {α : Type} (p : α → Bool) (l1 l2 : List α)
    (h : l1.find? p = none) : (l1 ++ l2).find? p = l2.find? p := by
  induction l1 with
  | nil => simp
  | cons a t ih =>
    simp only [List.cons_append, List.find?]
    cases hp : p a with
    | true => simp [List.find?, hp] at h
    | false =>
      simp only [List.find?, hp] at h
      exact ih h

/-- `find?` over `List.range` returns the least index satisfying the
predicate. -/
lemma range_find?_least (p : Nat → Bool) :
    ∀ k i, (List.range k).find? p = some i → p i = true ∧ ∀ j, j < i → p j = false := by
  intro k
  induction k with
  | zero => intro i h; simp [List.range_zero, List.find?] at h
  | succ k ih =>
    intro i h
    rw [List.range_succ] at h
    cases hk : (List.range k).find? p with
    | some i' =>
      have := find?_append_some p (List.range k) [k] i' hk
      rw [h] at this
      exact Option.some.inj this ▸ ih i' hk
    | none =>
      have hall : ∀ j ∈ List.range k, ¬ p j = true := List.find?_eq_none.mp hk
      rw [find?_append_none p (List.range k) [k] hk] at h
      by_cases hp : p k = true
      · simp only [List.find?, hp] at h
        have hik : i = k := by exact (Option.some.inj h).symm
        subst hik
        refine ⟨hp, fun j hj => ?_⟩
        have := hall j (List.mem_range.mpr hj)
        simpa using this
      · rw [Bool.not_eq_true] at hp
        simp only [List.find?, hp] at h
        exact absurd h (by simp)

lemma range_find?_none (p : Nat → Bool) (k : Nat)
    (h : (List.range k).find? p = none) : ∀ j, j < k → p j = false := by
  intro j hj
  have := List.find?_eq_none.mp h j (List.mem_range.mpr hj)
  simpa using this

lemma range_find?_lt (p : Nat → Bool) (k i : Nat)
    (h : (List.range k).find? p = some i) : i < k := by
  have := List.mem_of_find?_eq_some h
  exact List.mem_range.mp this

/-- `find?` over a range hits a uniquely satisfying index. -/
lemma range_find?_unique (p : Nat → Bool) (k i : Nat) (hik : i < k)
    (hp : p i = true) (huniq : ∀ j, j < k → j ≠ i → p j = false) :
    (List.range k).find? p = some i := by
  cases h : (List.range k).find? p with
  | none => exact absurd (range_find?_none p k h i hik) (by simp [hp])
  | some i2 =>
    have h1 := (range_find?_least p k i2 h).1
    have h2 := range_find?_lt p k i2 h
    by_cases he : i2 = i
    · rw [he]
    · exact absurd h1 (by simp [huniq i2 h2 he])

/-! ### find_file facts -/

lemma find_file_some (fname : String) (fs : FileSystem) (idx : Nat)
    (h : find_file fname fs = some idx) :
    idx < MAX_FILES ∧ (fs.file_table idx).in_use = true ∧
      (fs.file_table idx).filename = fname := by
  refine ⟨range_find?_lt _ _ _ h, ?_⟩
  have hp := (range_find?_least _ _ _ h).1
  have h1 := (Bool.and_eq_true _ _).mp hp
  exact ⟨h1.1, by simpa using h1.2⟩

lemma find_file_none (fname : String) (fs : FileSystem)
    (h : find_file fname fs = none) :
    ∀ i, i < MAX_FILES → (fs.file_table i).in_use = true →
      (fs.file_table i).filename ≠ fname := by
  intro i hi hu hn
  have := range_find?_none _ _ h i hi
  simp [hu, hn] at this

lemma find_file_unique (fname : String) (fs : FileSystem) (idx : Nat)
    (hik : idx < MAX_FILES) (hu : (fs.file_table idx).in_use = true)
    (hn : (fs.file_table idx).filename = fname)
    (huniq : ∀ j, j < MAX_FILES → j ≠ idx → ¬((fs.file_table j).in_use = true ∧
      (fs.file_table j).filename = fname)) :
    find_file fname fs = some idx := by
  refine range_find?_unique _ _ _ hik (by simp [hu, hn]) fun j hjk hj => ?_
  have := huniq j hjk hj
  by_cases h1 : (fs.file_table j).in_use = true
  · by_cases h2 : (fs.file_table j).filename = fname
    · exact absurd ⟨h1, h2⟩ this
    · simp [h2]
  · rw [Bool.not_eq_true] at h1
    simp [h1]

/-! ### Occupancy counting -/

lemma count_occupied_congr (m1 m2 : Nat → Bool)
    (h : ∀ b, b < MAX_BLOCKS → m1 b = m2 b) :
    count_occupied m1 = count_occupied m2 := by
  unfold count_occupied
  refine sum_map_congr _ _ _ fun b hb => ?_
  rw [h b (List.mem_range.mp hb)]

lemma set_map_self (m : Nat → Bool) (b : Nat) (v : Bool) : set_map m b v b = v := by
  simp [set_map]

lemma set_map_other (m : Nat → Bool) (b : Nat) (v : Bool) (j : Nat) (h : j ≠ b) :
    set_map m b v j = m j := by
  simp [set_map, h]

lemma count_occupied_update (m : Nat → Bool) (b : Nat) (v : Bool) (hb : b < MAX_BLOCKS) :
    count_occupied (set_map m b v) + (if m b then 1 else 0)
      = count_occupied m + (if v then 1 else 0) := by
  have h := sum_map_update (List.range MAX_BLOCKS) (List.nodup_range MAX_BLOCKS)
    (fun x => if m x then 1 else 0) (fun x => if set_map m b v x then 1 else 0) b
    (List.mem_range.mpr hb)
    (fun x _ hx => by
      show (if set_map m b v x = true then 1 else 0) = (if m x = true then 1 else 0)
      rw [set_map_other m b v x hx])
  have h2 : count_occupied (set_map m b v) + (if m b = true then 1 else 0)
      = count_occupied m + (if set_map m b v b = true then 1 else 0) := h
  rw [set_map_self m b v] at h2
  exact h2

lemma count_occupied_set_true (m : Nat → Bool) (b : Nat)
    (hb : b < MAX_BLOCKS) (hfree : m b = false) :
    count_occupied (set_map m b true) = count_occupied m + 1 := by
  have h := count_occupied_update m b true hb
  rw [hfree] at h
  simpa using h

lemma count_occupied_set_false (m : Nat → Bool) (b : Nat)
    (hb : b < MAX_BLOCKS) (hocc : m b = true) :
    count_occupied (set_map m b false) + 1 = count_occupied m := by
  have h := count_occupied_update m b false hb
  rw [hocc] at h
  simpa using h

/-- Relation between the ascending free list and the occupied recount. -/
lemma filter_free_length (m : Nat → Bool) (l : List Nat) :
    (l.filter fun b => !(m b)).length + (l.map fun b => if m b then 1 else 0).sum
      = l.length := by
  induction l with
  | nil => rfl
  | cons a t ih =>
    cases ha : m a with
    | true => simp [List.filter_cons, ha]; omega
    | false => simp [List.filter_cons, ha]; omega

lemma spec_free_list_length (m : Nat → Bool) :
    (spec_free_list m).length + count_occupied m = MAX_BLOCKS := by
  have := filter_free_length m (List.range MAX_BLOCKS)
  simpa [spec_free_list, count_occupied] using this

/-- Pointwise value of `mark_list`. -/
lemma mark_list_eval (bl : List Nat) :
    ∀ (m : Nat → Bool) (j : Nat), mark_list m bl j = if j ∈ bl then true else m j := by
  induction bl with
  | nil => intro m j; simp [mark_list]
  | cons b t ih =>
    intro m j
    have : mark_list m (b :: t) = mark_list (set_map m b true) t := rfl
    rw [this, ih]
    by_cases hjt : j ∈ t
    · simp [hjt]
    · by_cases hjb : j = b
      · simp [hjt, hjb, set_map_self]
      · simp [hjt, hjb, set_map_other m b true j hjb]


/-! ### The consecutive-run search -/

lemma seq_free_check_iff (m : Nat → Bool) (n i : Nat) :
    seq_free_check m n i = true ↔ SpecRunAt m n i := by
  unfold seq_free_check SpecRunAt
  rw [List.all_eq_true]
  constructor
  · intro h j hj
    have := h j (List.mem_range.mpr hj)
    simpa using this
  · intro h j hj
    have := h j (List.mem_range.mp hj)
    simp [this.1, this.2]

lemma find_consecutive_some (m : Nat → Bool) (n i : Nat) (hn : 0 < n)
    (h : find_consecutive m n = some i) :
    SpecRunAt m n i ∧ ∀ i2, i2 < i → ¬ SpecRunAt m n i2 := by
  have h1 := range_find?_least _ _ _ h
  constructor
  · have h2 := h1.1
    rw [Bool.and_eq_true] at h2
    exact (seq_free_check_iff m n i).mp h2.2
  · intro i2 hi2 hrun
    have hfalse := h1.2 i2 hi2
    have hchk := (seq_free_check_iff m n i2).mpr hrun
    have hm : m i2 = false := by
      have := hrun 0 hn
      simpa using this.2
    simp [hm, hchk] at hfalse

lemma find_consecutive_none (m : Nat → Bool) (n : Nat) (hn : 0 < n)
    (h : find_consecutive m n = none) : ∀ i, ¬ SpecRunAt m n i := by
  intro i hrun
  have hi : i < MAX_BLOCKS := by
    have := (hrun 0 hn).1
    omega
  have hfalse := range_find?_none _ _ h i hi
  have hchk := (seq_free_check_iff m n i).mpr hrun
  have hm : m i = false := by
    have := hrun 0 hn
    simpa using this.2
  simp [hm, hchk] at hfalse

/-! ### The scattered fallback -/

lemma alloc_scatter_zero (l : List Nat) (fs : FileSystem) :
    alloc_scatter l 0 fs = ([], fs) := by
  cases l <;> rfl

lemma alloc_scatter_nil (n : Nat) (fs : FileSystem) :
    alloc_scatter [] n fs = ([], fs) := by
  cases n <;> rfl

lemma alloc_scatter_cons_occ (i : Nat) (rest : List Nat) (k : Nat) (fs : FileSystem)
    (h : fs.block_map i = true) :
    alloc_scatter (i :: rest) (k + 1) fs = alloc_scatter rest (k + 1) fs := by
  simp [alloc_scatter, h]


lemma alloc_scatter_cons_free (i : Nat) (rest : List Nat) (k : Nat) (fs : FileSystem)
    (h : fs.block_map i = false) :
    alloc_scatter (i :: rest) (k + 1) fs =
      ((i :: (alloc_scatter rest k (scatter_mark fs i)).1),
       (alloc_scatter rest k (scatter_mark fs i)).2) := by
  simp [alloc_scatter, h, scatter_mark]

/-- Full characterisation of the scattered fallback: it takes the first
`n` free indices of its scan list (ascending), marks exactly those, and
counts them. -/
lemma alloc_scatter_spec (l : List Nat) (hl : l.Nodup) :
    ∀ (n : Nat) (fs : FileSystem),
      (alloc_scatter l n fs).1 = (l.filter fun b => !(fs.block_map b)).take n ∧
      (∀ j, (alloc_scatter l n fs).2.block_map j =
        if j ∈ (alloc_scatter l n fs).1 then true else fs.block_map j) ∧
      (alloc_scatter l n fs).2.used_blocks
        = fs.used_blocks + (alloc_scatter l n fs).1.length ∧
      (alloc_scatter l n fs).2.blocks = fs.blocks ∧
      (alloc_scatter l n fs).2.file_table = fs.file_table ∧
      (alloc_scatter l n fs).2.num_files = fs.num_files ∧
      (alloc_scatter l n fs).2.total_storage = fs.total_storage := by
  induction l with
  | nil =>
    intro n fs
    rw [alloc_scatter_nil]
    simp
  | cons i rest ih =>
    intro n fs
    have hnotin : i ∉ rest := (List.nodup_cons.mp hl).1
    have hnd : rest.Nodup := (List.nodup_cons.mp hl).2
    cases n with
    | zero =>
      rw [alloc_scatter_zero]
      simp
    | succ k =>
      cases hmap : fs.block_map i with
      | true =>
        rw [alloc_scatter_cons_occ i rest k fs hmap]
        have hres := ih hnd (k + 1) fs
        rw [List.filter_cons]
        simp only [hmap, Bool.not_true, Bool.false_eq_true, if_false]
        exact hres
      | false =>
        have hstep := alloc_scatter_cons_free i rest k fs hmap
        obtain ⟨r1, r2, r3, r4, r5, r6, r7⟩ := ih hnd k (scatter_mark fs i)
        have hmark_map : ∀ b, b ≠ i →
            (scatter_mark fs i).block_map b = fs.block_map b := by
          intro b hb
          exact set_map_other fs.block_map i true b hb
        have hfilter : (rest.filter fun b => !((scatter_mark fs i).block_map b))
            = rest.filter fun b => !(fs.block_map b) := by
          refine List.filter_congr fun b hb => ?_
          have hbne : b ≠ i := fun hbe => hnotin (hbe ▸ hb)
          simp only [hmark_map b hbne]
        refine ⟨?_, ?_, ?_, ?_, ?_, ?_, ?_⟩
        · rw [hstep]
          show i :: (alloc_scatter rest k (scatter_mark fs i)).1
              = ((i :: rest).filter fun b => !(fs.block_map b)).take (k + 1)
          rw [List.filter_cons]
          simp only [hmap, Bool.not_false, if_true, List.take_succ_cons]
          rw [r1, hfilter]
        · intro j
          rw [hstep]
          show (alloc_scatter rest k (scatter_mark fs i)).2.block_map j
              = if j ∈ i :: (alloc_scatter rest k (scatter_mark fs i)).1 then true
                else fs.block_map j
          rw [r2 j]
          by_cases hj1 : j ∈ (alloc_scatter rest k (scatter_mark fs i)).1
          · simp [hj1]
          · rw [if_neg hj1]
            by_cases hj2 : j = i
            · subst hj2
              have hself : (scatter_mark fs j).block_map j = true :=
                set_map_self fs.block_map j true
              rw [hself]
              simp
            · rw [hmark_map j hj2]
              have hnot : j ∉ i :: (alloc_scatter rest k (scatter_mark fs i)).1 := by
                simp [hj1, hj2]
              rw [if_neg hnot]
        · rw [hstep]
          show (alloc_scatter rest k (scatter_mark fs i)).2.used_blocks
              = fs.used_blocks
                + (i :: (alloc_scatter rest k (scatter_mark fs i)).1).length
          rw [r3]
          have hmu : (scatter_mark fs i).used_blocks = fs.used_blocks + 1 := rfl
          rw [hmu]
          simp only [List.length_cons]
          omega
        · rw [hstep]
          show (alloc_scatter rest k (scatter_mark fs i)).2.blocks = fs.blocks
          rw [r4]
          rfl
        · rw [hstep]
          show (alloc_scatter rest k (scatter_mark fs i)).2.file_table = fs.file_table
          rw [r5]
          rfl
        · rw [hstep]
          show (alloc_scatter rest k (scatter_mark fs i)).2.num_files = fs.num_files
          rw [r6]
          rfl
        · rw [hstep]
          show (alloc_scatter rest k (scatter_mark fs i)).2.total_storage
              = fs.total_storage
          rw [r7]
          rfl

set_option maxRecDepth 8192 in
/-- Under the accounting invariant, an allocation request that passes the
free-space pre-check always succeeds in full. -/
lemma allocate_spec (fs : FileSystem) (n : Nat)
    (hused : fs.used_blocks = count_occupied fs.block_map)
    (hn : 0 < n) (hcap : fs.used_blocks + n ≤ MAX_BLOCKS) :
    AllocOut fs n (allocate_blocks n fs) := by
  have hg1 : ¬(n = 0 ∨ n > MAX_BLOCKS) := by omega
  have hg2 : ¬(fs.used_blocks + n > MAX_BLOCKS) := by omega
  unfold allocate_blocks
  rw [if_neg hg1, if_neg hg2]
  cases hfind : find_consecutive fs.block_map n with
  | some i =>
    obtain ⟨hrun, -⟩ := find_consecutive_some _ _ _ hn hfind
    refine ⟨?_, ?_, ?_, ?_, ?_, ?_, rfl, rfl, rfl, rfl⟩
    · simp
    · refine List.Nodup.map ?_ (List.nodup_range n)
      intro a b hab
      have hab2 : i + a = i + b := hab
      omega
    · intro b hb
      obtain ⟨j, hj, rfl⟩ := List.mem_map.mp hb
      exact (hrun j (List.mem_range.mp hj)).1
    · intro b hb
      obtain ⟨j, hj, rfl⟩ := List.mem_map.mp hb
      exact (hrun j (List.mem_range.mp hj)).2
    · intro j
      exact mark_list_eval _ fs.block_map j
    · rfl
  | none =>
    obtain ⟨h1, h2, h3, h4, h5, h6, h7⟩ :=
      alloc_scatter_spec (List.range MAX_BLOCKS) (List.nodup_range MAX_BLOCKS) n fs
    have hflen : n ≤ ((List.range MAX_BLOCKS).filter fun b => !(fs.block_map b)).length := by
      have hc := spec_free_list_length fs.block_map
      unfold spec_free_list at hc
      omega
    have hlen : (alloc_scatter (List.range MAX_BLOCKS) n fs).1.length = n := by
      rw [h1, List.length_take]
      omega
    refine ⟨hlen, ?_, ?_, ?_, h2, ?_, h4, h5, h6, h7⟩
    · rw [h1]
      refine List.Sublist.nodup (List.take_sublist _ _) ?_
      exact List.Nodup.filter _ (List.nodup_range MAX_BLOCKS)
    · intro b hb
      rw [h1] at hb
      have hb2 := List.mem_of_mem_take hb
      have hb3 := (List.mem_filter.mp hb2).1
      exact List.mem_range.mp hb3
    · intro b hb
      rw [h1] at hb
      have hb2 := List.mem_of_mem_take hb
      have hb3 := (List.mem_filter.mp hb2).2
      simpa using hb3
    · rw [h3, hlen]

/-! ### Freeing blocks -/

lemma free_one_taken (fs : FileSystem) (b : Nat) (h1 : b < MAX_BLOCKS)
    (h2 : fs.block_map b = true) : free_one fs b = free_mark fs b := by
  unfold free_one
  rw [if_pos ⟨h1, h2⟩]

lemma free_one_skip (fs : FileSystem) (b : Nat)
    (h : ¬(b < MAX_BLOCKS ∧ fs.block_map b = true)) : free_one fs b = fs := by
  unfold free_one
  rw [if_neg h]

/-- Folding `free_one` over a duplicate-free list of occupied in-range
blocks frees exactly them, zeroes exactly them, and decrements the
counter by their number. -/
lemma free_fold_spec (bl : List Nat) :
    ∀ fs : FileSystem, bl.Nodup →
      (∀ b ∈ bl, b < MAX_BLOCKS ∧ fs.block_map b = true) →
      (∀ j, (bl.foldl free_one fs).block_map j
        = if j ∈ bl then false else fs.block_map j) ∧
      (∀ j p, (bl.foldl free_one fs).blocks j p
        = if j ∈ bl then 0 else fs.blocks j p) ∧
      (bl.foldl free_one fs).used_blocks = fs.used_blocks - bl.length ∧
      (bl.foldl free_one fs).file_table = fs.file_table ∧
      (bl.foldl free_one fs).num_files = fs.num_files ∧
      (bl.foldl free_one fs).total_storage = fs.total_storage := by
  induction bl with
  | nil =>
    intro fs _ _
    simp
  | cons b rest ih =>
    intro fs hnd hocc
    have hnotin : b ∉ rest := (List.nodup_cons.mp hnd).1
    have hb := hocc b (List.mem_cons_self b rest)
    have hstep : (b :: rest).foldl free_one fs = rest.foldl free_one (free_mark fs b) := by
      show (rest.foldl free_one (free_one fs b)) = _
      rw [free_one_taken fs b hb.1 hb.2]
    have hmark_map : ∀ j, j ≠ b → (free_mark fs b).block_map j = fs.block_map j := by
      intro j hj
      exact set_map_other fs.block_map b false j hj
    obtain ⟨r1, r2, r3, r4, r5, r6⟩ := ih (free_mark fs b) (List.nodup_cons.mp hnd).2
      (by
        intro b2 hb2
        have hne : b2 ≠ b := fun he => hnotin (he ▸ hb2)
        have := hocc b2 (List.mem_cons_of_mem b hb2)
        exact ⟨this.1, by rw [hmark_map b2 hne]; exact this.2⟩)
    rw [hstep]
    refine ⟨?_, ?_, ?_, ?_, ?_, ?_⟩
    · intro j
      rw [r1 j]
      by_cases hj1 : j ∈ rest
      · simp [hj1]
      · rw [if_neg hj1]
        by_cases hj2 : j = b
        · subst hj2
          have : (free_mark fs j).block_map j = false := set_map_self fs.block_map j false
          rw [this]
          simp
        · rw [hmark_map j hj2]
          have : j ∉ b :: rest := by simp [hj1, hj2]
          rw [if_neg this]
    · intro j p
      rw [r2 j p]
      by_cases hj1 : j ∈ rest
      · simp [hj1]
      · rw [if_neg hj1]
        by_cases hj2 : j = b
        · subst hj2
          have : (free_mark fs j).blocks j p = 0 := by
            show (if j = j then 0 else fs.blocks j p) = 0
            simp
          rw [this]
          simp
        · have : (free_mark fs b).blocks j p = fs.blocks j p := by
            show (if j = b then 0 else fs.blocks j p) = fs.blocks j p
            simp [hj2]
          rw [this]
          have hnot : j ∉ b :: rest := by simp [hj1, hj2]
          rw [if_neg hnot]
    · rw [r3]
      have : (free_mark fs b).used_blocks = fs.used_blocks - 1 := rfl
      rw [this]
      simp only [List.length_cons]
      omega
    · rw [r4]
      rfl
    · rw [r5]
      rfl
    · rw [r6]
      rfl

/-- Freeing never un-zeroes a byte. -/
lemma free_fold_zero_preserved (bl : List Nat) :
    ∀ (fs : FileSystem) (b p : Nat), fs.blocks b p = 0 →
      (bl.foldl free_one fs).blocks b p = 0 := by
  induction bl with
  | nil => intro fs b p h; exact h
  | cons a rest ih =>
    intro fs b p h
    show (rest.foldl free_one (free_one fs a)).blocks b p = 0
    refine ih (free_one fs a) b p ?_
    unfold free_one
    by_cases hc : a < MAX_BLOCKS ∧ fs.block_map a = true
    · rw [if_pos hc]
      show (if b = a then 0 else fs.blocks b p) = 0
      by_cases hba : b = a
      · simp [hba]
      · simp [hba, h]
    · rw [if_neg hc]
      exact h

/-- Any block that the `free_one` fold actually frees (it is in the
list, in range, occupied at call time) ends up with zeroed content. -/
lemma free_fold_zeroes (bl : List Nat) :
    ∀ (fs : FileSystem) (b : Nat), b ∈ bl → b < MAX_BLOCKS →
      fs.block_map b = true → ∀ p, (bl.foldl free_one fs).blocks b p = 0 := by
  induction bl with
  | nil => intro fs b hb; cases hb
  | cons a rest ih =>
    intro fs b hb hlt hoc p
    show (rest.foldl free_one (free_one fs a)).blocks b p = 0
    by_cases hba : b = a
    · subst hba
      rw [free_one_taken fs b hlt hoc]
      refine free_fold_zero_preserved rest (free_mark fs b) b p ?_
      show (if b = b then 0 else fs.blocks b p) = 0
      simp
    · have hbrest : b ∈ rest := by
        rcases List.mem_cons.mp hb with h1 | h1
        · exact absurd h1 hba
        · exact h1
      have hmap : (free_one fs a).block_map b = fs.block_map b := by
        unfold free_one
        by_cases hc : a < MAX_BLOCKS ∧ fs.block_map a = true
        · rw [if_pos hc]
          exact set_map_other fs.block_map a false b hba
        · rw [if_neg hc]
      exact ih (free_one fs a) b hbrest hlt (hmap ▸ hoc) p

/-! ### The byte walks -/

lemma map_congr_mem {α β : Type} (l : List α) (f g : α → β)
    (h : ∀ x ∈ l, f x = g x) : l.map f = l.map g := by
  induction l with
  | nil => rfl
  | cons a t ih =>
    simp only [List.map_cons]
    rw [h a (List.mem_cons_self a t), ih fun x hx => h x (List.mem_cons_of_mem a hx)]

lemma take_eq_map_range_getD (l : List Nat) (m : Nat) (h : m ≤ l.length) :
    (List.range m).map (fun k => l.getD k 0) = l.take m := by
  refine List.ext_getElem ?_ ?_
  · simp [h]
  · intro i h1 h2
    simp only [List.getElem_map, List.getElem_range, List.getElem_take]
    have hi : i < l.length := by
      simp at h1
      omega
    rw [List.getD_eq_getElem l 0 hi]

lemma write_loop_nil_bl (store : Nat → Nat → Nat) (pos : Nat) (data : List Nat) :
    write_loop store [] pos data = (store, 0) := by
  cases data <;> rfl

lemma write_loop_nil_data (store : Nat → Nat → Nat) (b : Nat) (rest : List Nat)
    (pos : Nat) : write_loop store (b :: rest) pos [] = (store, 0) := rfl

lemma write_loop_cons (store : Nat → Nat → Nat) (b : Nat) (rest : List Nat)
    (pos d : Nat) (ds : List Nat) :
    write_loop store (b :: rest) pos (d :: ds) =
      ((write_loop (write_chunk store b pos ((d :: ds).take (chunk_size pos (d :: ds).length)))
          rest 0 ((d :: ds).drop (chunk_size pos (d :: ds).length))).1,
        chunk_size pos (d :: ds).length
          + (write_loop (write_chunk store b pos ((d :: ds).take (chunk_size pos (d :: ds).length)))
              rest 0 ((d :: ds).drop (chunk_size pos (d :: ds).length))).2) := rfl

lemma read_loop_nil (store : Nat → Nat → Nat) (pos n : Nat) :
    read_loop store [] pos n = [] := rfl

lemma read_loop_cons (store : Nat → Nat → Nat) (b : Nat) (rest : List Nat) (pos n : Nat) :
    read_loop store (b :: rest) pos n =
      if n = 0 then []
      else ((List.range (chunk_size pos n)).map fun k => store b (pos + k))
        ++ read_loop store rest 0 (n - chunk_size pos n) := rfl

lemma chunk_size_pos (pos n : Nat) (hpos : pos < BLOCK_SIZE) (hn : 0 < n) :
    0 < chunk_size pos n := by
  unfold chunk_size
  have hb : BLOCK_SIZE = 512 := rfl
  split <;> omega

lemma chunk_size_le (pos n : Nat) : chunk_size pos n ≤ n := by
  unfold chunk_size
  split <;> omega

/-- The write walk never touches a block outside its list. -/
lemma write_loop_other (bl : List Nat) :
    ∀ (store : Nat → Nat → Nat) (pos : Nat) (data : List Nat) (b2 : Nat),
      b2 ∉ bl → ∀ p, (write_loop store bl pos data).1 b2 p = store b2 p := by
  induction bl with
  | nil =>
    intro store pos data b2 _ p
    rw [write_loop_nil_bl]
  | cons b rest ih =>
    intro store pos data b2 hb2 p
    have hne : b2 ≠ b := fun he => hb2 (he ▸ List.mem_cons_self b rest)
    have hrest : b2 ∉ rest := fun hm => hb2 (List.mem_cons_of_mem b hm)
    cases data with
    | nil => rw [write_loop_nil_data]
    | cons d ds =>
      rw [write_loop_cons]
      rw [ih _ 0 _ b2 hrest p]
      show (if b2 = b ∧ _ ∧ _ then _ else store b2 p) = store b2 p
      rw [if_neg]
      intro hc
      exact hne hc.1

lemma chunk_size_eq (pos n : Nat) :
    chunk_size pos n = if pos + n > 512 then 512 - pos else n := rfl

lemma chunk_size_spec (pos n : Nat) :
    (pos + n > 512 ∧ chunk_size pos n = 512 - pos) ∨
    (pos + n ≤ 512 ∧ chunk_size pos n = n) := by
  rw [chunk_size_eq]
  by_cases h : pos + n > 512
  · left
    exact ⟨h, if_pos h⟩
  · right
    exact ⟨by omega, if_neg h⟩

/-- If the listed blocks have room for the data past the start position,
the write walk reports exactly the data length as written. -/
lemma write_loop_count (bl : List Nat) :
    ∀ (store : Nat → Nat → Nat) (pos : Nat) (data : List Nat),
      pos < BLOCK_SIZE → pos + data.length ≤ BLOCK_SIZE * bl.length →
      (write_loop store bl pos data).2 = data.length := by
  induction bl with
  | nil =>
    intro store pos data _ hcap
    rw [write_loop_nil_bl]
    show 0 = data.length
    simp only [List.length_nil, Nat.mul_zero] at hcap
    omega
  | cons b rest ih =>
    intro store pos data hpos hcap
    cases data with
    | nil => rfl
    | cons d ds =>
      rw [write_loop_cons]
      show chunk_size pos (d :: ds).length
          + (write_loop (write_chunk store b pos
              ((d :: ds).take (chunk_size pos (d :: ds).length)))
            rest 0 ((d :: ds).drop (chunk_size pos (d :: ds).length))).2
        = (d :: ds).length
      have hBS : BLOCK_SIZE = 512 := rfl
      rw [hBS] at hcap
      simp only [List.length_cons] at hcap
      have hdroplen : ((d :: ds).drop (chunk_size pos (d :: ds).length)).length
          = (d :: ds).length - chunk_size pos (d :: ds).length :=
        List.length_drop _ _
      have hcap2 : 0 + ((d :: ds).drop (chunk_size pos (d :: ds).length)).length
          ≤ BLOCK_SIZE * rest.length := by
        rw [hdroplen, hBS]
        have hlc : (d :: ds).length = ds.length + 1 := List.length_cons d ds
        rcases chunk_size_spec pos (d :: ds).length with ⟨h1, h2⟩ | ⟨h1, h2⟩ <;>
          rw [h2] <;> omega
      have hrec := ih (write_chunk store b pos
          ((d :: ds).take (chunk_size pos (d :: ds).length))) 0
          ((d :: ds).drop (chunk_size pos (d :: ds).length))
          (by rw [hBS]; omega) hcap2
      rw [hrec, hdroplen]
      have hle := chunk_size_le pos (d :: ds).length
      omega

/-- If the listed blocks cover the requested range, the read walk
produces exactly the requested number of bytes. -/
lemma read_loop_length (bl : List Nat) :
    ∀ (store : Nat → Nat → Nat) (pos n : Nat),
      pos < BLOCK_SIZE → pos + n ≤ BLOCK_SIZE * bl.length →
      (read_loop store bl pos n).length = n := by
  induction bl with
  | nil =>
    intro store pos n _ hcap
    rw [read_loop_nil]
    simp only [List.length_nil, Nat.mul_zero] at hcap
    simp only [List.length_nil]
    omega
  | cons b rest ih =>
    intro store pos n hpos hcap
    rw [read_loop_cons]
    by_cases hn : n = 0
    · rw [if_pos hn]
      simp [hn]
    · rw [if_neg hn]
      rw [List.length_append, List.length_map, List.length_range]
      have hBS : BLOCK_SIZE = 512 := rfl
      rw [hBS] at hcap
      simp only [List.length_cons] at hcap
      have hcap2 : 0 + (n - chunk_size pos n) ≤ BLOCK_SIZE * rest.length := by
        rw [hBS]
        rcases chunk_size_spec pos n with ⟨h1, h2⟩ | ⟨h1, h2⟩ <;> rw [h2] <;> omega
      rw [ih store 0 (n - chunk_size pos n) (by rw [hBS]; omega) hcap2]
      have hle := chunk_size_le pos n
      omega

/-- Reading from all-zero blocks yields all-zero bytes. -/
lemma read_loop_zero (bl : List Nat) :
    ∀ (store : Nat → Nat → Nat) (pos n : Nat),
      (∀ b ∈ bl, ∀ p, store b p = 0) →
      pos < BLOCK_SIZE → pos + n ≤ BLOCK_SIZE * bl.length →
      read_loop store bl pos n = List.replicate n 0 := by
  induction bl with
  | nil =>
    intro store pos n _ _ hcap
    simp only [List.length_nil, Nat.mul_zero] at hcap
    have hn0 : n = 0 := by omega
    rw [read_loop_nil, hn0]
    rfl
  | cons b rest ih =>
    intro store pos n hz hpos hcap
    rw [read_loop_cons]
    by_cases hn : n = 0
    · rw [if_pos hn, hn]
      rfl
    · rw [if_neg hn]
      have hzb := hz b (List.mem_cons_self b rest)
      have hchunk : ((List.range (chunk_size pos n)).map fun k => store b (pos + k))
          = List.replicate (chunk_size pos n) 0 := by
        refine List.ext_getElem ?_ ?_
        · simp
        · intro i h1 h2
          simp [hzb]
      have hBS : BLOCK_SIZE = 512 := rfl
      rw [hBS] at hcap
      simp only [List.length_cons] at hcap
      have hcap2 : 0 + (n - chunk_size pos n) ≤ BLOCK_SIZE * rest.length := by
        rw [hBS]
        rcases chunk_size_spec pos n with ⟨h1, h2⟩ | ⟨h1, h2⟩ <;> rw [h2] <;> omega
      rw [hchunk, ih store 0 (n - chunk_size pos n)
        (fun b2 hb2 => hz b2 (List.mem_cons_of_mem b hb2)) (by rw [hBS]; omega) hcap2]
      rw [← List.replicate_add]
      have hle := chunk_size_le pos n
      congr 1
      omega

/-- Round trip of the walks: reading back the range just written over a
duplicate-free block list reproduces the data. -/
lemma write_read_roundtrip (bl : List Nat) :
    ∀ (store : Nat → Nat → Nat) (pos : Nat) (data : List Nat),
      bl.Nodup → pos < BLOCK_SIZE → pos + data.length ≤ BLOCK_SIZE * bl.length →
      read_loop (write_loop store bl pos data).1 bl pos data.length = data := by
  induction bl with
  | nil =>
    intro store pos data _ _ hcap
    simp only [List.length_nil, Nat.mul_zero] at hcap
    have h0 : data.length = 0 := by omega
    rw [read_loop_nil]
    exact (List.length_eq_zero.mp h0).symm
  | cons b rest ih =>
    intro store pos data hnd hpos hcap
    have hnotin : b ∉ rest := (List.nodup_cons.mp hnd).1
    cases data with
    | nil =>
      rw [write_loop_nil_data, read_loop_cons]
      simp
    | cons d ds =>
      rw [write_loop_cons]
      show read_loop (write_loop (write_chunk store b pos
            ((d :: ds).take (chunk_size pos (d :: ds).length)))
          rest 0 ((d :: ds).drop (chunk_size pos (d :: ds).length))).1
          (b :: rest) pos (d :: ds).length = d :: ds
      rw [read_loop_cons]
      have hn : (d :: ds).length ≠ 0 := by simp
      rw [if_neg hn]
      have hle := chunk_size_le pos (d :: ds).length
      have htakelen : ((d :: ds).take (chunk_size pos (d :: ds).length)).length
          = chunk_size pos (d :: ds).length := by
        rw [List.length_take]
        omega
      have hWother : ∀ p, (write_loop (write_chunk store b pos
            ((d :: ds).take (chunk_size pos (d :: ds).length)))
          rest 0 ((d :: ds).drop (chunk_size pos (d :: ds).length))).1 b p
          = write_chunk store b pos
              ((d :: ds).take (chunk_size pos (d :: ds).length)) b p :=
        fun p => write_loop_other rest _ 0 _ b hnotin p
      have hchunkval : ∀ k, k < chunk_size pos (d :: ds).length →
          write_chunk store b pos ((d :: ds).take (chunk_size pos (d :: ds).length))
            b (pos + k)
          = ((d :: ds).take (chunk_size pos (d :: ds).length)).getD k 0 := by
        intro k hk
        show (if b = b ∧ pos ≤ pos + k ∧ pos + k < pos
              + ((d :: ds).take (chunk_size pos (d :: ds).length)).length
            then ((d :: ds).take (chunk_size pos (d :: ds).length)).getD (pos + k - pos) 0
            else store b (pos + k))
          = ((d :: ds).take (chunk_size pos (d :: ds).length)).getD k 0
        rw [if_pos ⟨rfl, Nat.le_add_right pos k, by rw [htakelen]; omega⟩]
        congr 1
        omega
      have hA : ((List.range (chunk_size pos (d :: ds).length)).map
            fun k => (write_loop (write_chunk store b pos
              ((d :: ds).take (chunk_size pos (d :: ds).length)))
            rest 0 ((d :: ds).drop (chunk_size pos (d :: ds).length))).1 b (pos + k))
          = (d :: ds).take (chunk_size pos (d :: ds).length) := by
        rw [map_congr_mem _ _
          (fun k => ((d :: ds).take (chunk_size pos (d :: ds).length)).getD k 0)
          (fun x hx => by
            rw [hWother (pos + x)]
            exact hchunkval x (List.mem_range.mp hx))]
        rw [take_eq_map_range_getD _ _ (by rw [htakelen])]
        exact List.take_of_length_le (by rw [htakelen])
      have hBS : BLOCK_SIZE = 512 := rfl
      have hdroplen : ((d :: ds).drop (chunk_size pos (d :: ds).length)).length
          = (d :: ds).length - chunk_size pos (d :: ds).length :=
        List.length_drop _ _
      have hcap2 : 0 + ((d :: ds).drop (chunk_size pos (d :: ds).length)).length
          ≤ BLOCK_SIZE * rest.length := by
        rw [hdroplen, hBS]
        rw [hBS] at hcap
        simp only [List.length_cons] at hcap
        have hlc : (d :: ds).length = ds.length + 1 := List.length_cons d ds
        rcases chunk_size_spec pos (d :: ds).length with ⟨h1, h2⟩ | ⟨h1, h2⟩ <;>
          rw [h2] <;> omega
      have hrec := ih (write_chunk store b pos
          ((d :: ds).take (chunk_size pos (d :: ds).length))) 0
          ((d :: ds).drop (chunk_size pos (d :: ds).length))
          (List.nodup_cons.mp hnd).2 (by rw [hBS]; omega) hcap2
      rw [hdroplen] at hrec
      rw [hA, hrec]
      exact List.take_append_drop _ _

/-- Every byte the write walk changes comes from the data, so if the
data has no zero byte, no changed byte is zero. -/
lemma write_loop_values (bl : List Nat) :
    ∀ (store : Nat → Nat → Nat) (pos : Nat) (data : List Nat),
      (∀ x ∈ data, x ≠ 0) →
      ∀ b p, (write_loop store bl pos data).1 b p ≠ store b p →
        (write_loop store bl pos data).1 b p ≠ 0 := by
  induction bl with
  | nil =>
    intro store pos data _ b p hne
    rw [write_loop_nil_bl] at hne ⊢
    exact absurd rfl hne
  | cons b0 rest ih =>
    intro store pos data hz b p hne
    cases data with
    | nil =>
      rw [write_loop_nil_data] at hne ⊢
      exact absurd rfl hne
    | cons d ds =>
      have hne2 : (write_loop (write_chunk store b0 pos
            ((d :: ds).take (chunk_size pos (d :: ds).length)))
          rest 0 ((d :: ds).drop (chunk_size pos (d :: ds).length))).1 b p
          ≠ store b p := hne
      show (write_loop (write_chunk store b0 pos
            ((d :: ds).take (chunk_size pos (d :: ds).length)))
          rest 0 ((d :: ds).drop (chunk_size pos (d :: ds).length))).1 b p ≠ 0
      by_cases heq : (write_loop (write_chunk store b0 pos
            ((d :: ds).take (chunk_size pos (d :: ds).length)))
          rest 0 ((d :: ds).drop (chunk_size pos (d :: ds).length))).1 b p
          = write_chunk store b0 pos
              ((d :: ds).take (chunk_size pos (d :: ds).length)) b p
      · have h3 : write_chunk store b0 pos
            ((d :: ds).take (chunk_size pos (d :: ds).length)) b p ≠ store b p :=
          heq ▸ hne2
        by_cases hcond : b = b0 ∧ pos ≤ p ∧ p < pos
            + ((d :: ds).take (chunk_size pos (d :: ds).length)).length
        · have hval : write_chunk store b0 pos
              ((d :: ds).take (chunk_size pos (d :: ds).length)) b p
              = ((d :: ds).take (chunk_size pos (d :: ds).length)).getD (p - pos) 0 := by
            show (if b = b0 ∧ pos ≤ p ∧ p < pos
                  + ((d :: ds).take (chunk_size pos (d :: ds).length)).length
                then ((d :: ds).take (chunk_size pos (d :: ds).length)).getD (p - pos) 0
                else store b p)
              = ((d :: ds).take (chunk_size pos (d :: ds).length)).getD (p - pos) 0
            rw [if_pos hcond]
          have hidx : p - pos
              < ((d :: ds).take (chunk_size pos (d :: ds).length)).length := by
            obtain ⟨-, hc2, hc3⟩ := hcond
            omega
          have hmem : ((d :: ds).take (chunk_size pos (d :: ds).length)).getD (p - pos) 0
              ∈ (d :: ds).take (chunk_size pos (d :: ds).length) := by
            rw [List.getD_eq_getElem _ _ hidx]
            exact List.getElem_mem hidx
          have hnz := hz _ (List.mem_of_mem_take hmem)
          rw [heq, hval]
          exact hnz
        · have hid : write_chunk store b0 pos
              ((d :: ds).take (chunk_size pos (d :: ds).length)) b p = store b p := by
            show (if b = b0 ∧ pos ≤ p ∧ p < pos
                  + ((d :: ds).take (chunk_size pos (d :: ds).length)).length
                then ((d :: ds).take (chunk_size pos (d :: ds).length)).getD (p - pos) 0
                else store b p)
              = store b p
            rw [if_neg hcond]
          exact absurd hid h3
      · exact ih (write_chunk store b0 pos
            ((d :: ds).take (chunk_size pos (d :: ds).length))) 0
            ((d :: ds).drop (chunk_size pos (d :: ds).length))
            (fun x hx => hz x (List.mem_of_mem_drop hx)) b p heq

/-! ## Preservation of the master invariant -/

lemma count_occupied_mem_list (bl : List Nat) :
    ∀ (m m2 : Nat → Bool), bl.Nodup → (∀ b ∈ bl, b < MAX_BLOCKS) →
      (∀ b ∈ bl, m b = false) →
      (∀ j, m2 j = if j ∈ bl then true else m j) →
      count_occupied m2 = count_occupied m + bl.length := by
  induction bl with
  | nil =>
    intro m m2 _ _ _ hm2
    have h := count_occupied_congr m2 m (fun b _ => by rw [hm2 b]; simp)
    simpa using h
  | cons b rest ih =>
    intro m m2 hnd hlt hfree hm2
    have hnotin : b ∉ rest := (List.nodup_cons.mp hnd).1
    have hm2' : ∀ j, m2 j
        = set_map (fun j2 => if j2 ∈ rest then true else m j2) b true j := by
      intro j
      rw [hm2 j]
      unfold set_map
      by_cases hjb : j = b
      · simp [hjb]
      · by_cases hjr : j ∈ rest <;> simp [hjb, hjr]
    have hcong : count_occupied m2
        = count_occupied (set_map (fun j2 => if j2 ∈ rest then true else m j2) b true) :=
      count_occupied_congr _ _ (fun j _ => hm2' j)
    have hih := ih m (fun j2 => if j2 ∈ rest then true else m j2)
      (List.nodup_cons.mp hnd).2
      (fun x hx => hlt x (List.mem_cons_of_mem b hx))
      (fun x hx => hfree x (List.mem_cons_of_mem b hx))
      (fun j => rfl)
    have hmid_free : (fun j2 => if j2 ∈ rest then true else m j2) b = false := by
      show (if b ∈ rest then true else m b) = false
      rw [if_neg hnotin]
      exact hfree b (List.mem_cons_self b rest)
    have hset := count_occupied_set_true (fun j2 => if j2 ∈ rest then true else m j2) b
      (hlt b (List.mem_cons_self b rest)) hmid_free
    rw [hcong, hset, hih]
    simp only [List.length_cons]
    omega

lemma count_occupied_unmark_list (bl : List Nat) :
    ∀ (m m2 : Nat → Bool), bl.Nodup → (∀ b ∈ bl, b < MAX_BLOCKS) →
      (∀ b ∈ bl, m b = true) →
      (∀ j, m2 j = if j ∈ bl then false else m j) →
      count_occupied m2 + bl.length = count_occupied m := by
  induction bl with
  | nil =>
    intro m m2 _ _ _ hm2
    have h := count_occupied_congr m2 m (fun b _ => by rw [hm2 b]; simp)
    simpa using h
  | cons b rest ih =>
    intro m m2 hnd hlt hocc hm2
    have hnotin : b ∉ rest := (List.nodup_cons.mp hnd).1
    have hm2' : ∀ j, m2 j
        = set_map (fun j2 => if j2 ∈ rest then false else m j2) b false j := by
      intro j
      rw [hm2 j]
      unfold set_map
      by_cases hjb : j = b
      · simp [hjb]
      · by_cases hjr : j ∈ rest <;> simp [hjb, hjr]
    have hcong : count_occupied m2
        = count_occupied (set_map (fun j2 => if j2 ∈ rest then false else m j2) b false) :=
      count_occupied_congr _ _ (fun j _ => hm2' j)
    have hih := ih m (fun j2 => if j2 ∈ rest then false else m j2)
      (List.nodup_cons.mp hnd).2
      (fun x hx => hlt x (List.mem_cons_of_mem b hx))
      (fun x hx => hocc x (List.mem_cons_of_mem b hx))
      (fun j => rfl)
    have hmid_occ : (fun j2 => if j2 ∈ rest then false else m j2) b = true := by
      show (if b ∈ rest then false else m b) = true
      rw [if_neg hnotin]
      exact hocc b (List.mem_cons_self b rest)
    have hset := count_occupied_set_false (fun j2 => if j2 ∈ rest then false else m j2) b
      (hlt b (List.mem_cons_self b rest)) hmid_occ
    rw [hcong]
    simp only [List.length_cons]
    omega

/-- Changing one slot of the file table shifts each live aggregate by
the difference between the old and new slot contributions. -/
lemma live_sum_generic (fs fs2 : FileSystem) (idx : Nat) (e : FileEntry)
    (f : FileEntry → Nat) (hidx : idx < MAX_FILES)
    (htable : ∀ i, fs2.file_table i = if i = idx then e else fs.file_table i) :
    ((List.range MAX_FILES).map fun i =>
        if (fs2.file_table i).in_use then f (fs2.file_table i) else 0).sum
      + (if (fs.file_table idx).in_use then f (fs.file_table idx) else 0)
    = ((List.range MAX_FILES).map fun i =>
        if (fs.file_table i).in_use then f (fs.file_table i) else 0).sum
      + (if e.in_use then f e else 0) := by
  have h := sum_map_update (List.range MAX_FILES) (List.nodup_range MAX_FILES)
    (fun i => if (fs.file_table i).in_use then f (fs.file_table i) else 0)
    (fun i => if (fs2.file_table i).in_use then f (fs2.file_table i) else 0)
    idx (List.mem_range.mpr hidx)
    (fun x _ hx => by
      show (if (fs2.file_table x).in_use then f (fs2.file_table x) else 0)
          = (if (fs.file_table x).in_use then f (fs.file_table x) else 0)
      rw [htable x, if_neg hx])
  have h2 : ((List.range MAX_FILES).map fun i =>
        if (fs2.file_table i).in_use then f (fs2.file_table i) else 0).sum
      + (if (fs.file_table idx).in_use then f (fs.file_table idx) else 0)
    = ((List.range MAX_FILES).map fun i =>
        if (fs.file_table i).in_use then f (fs.file_table i) else 0).sum
      + (if (fs2.file_table idx).in_use then f (fs2.file_table idx) else 0) := h
  rw [htable idx] at h2
  have h3 : (if idx = idx then e else fs.file_table idx) = e := if_pos rfl
  rw [h3] at h2
  exact h2

lemma wf_init : WF init_filesystem := by
  refine ⟨?_, ?_, ?_, ?_, ?_, ?_, ?_, ?_⟩
  · show (0 : Nat) = count_occupied (fun _ => false)
    exact (sum_map_zero (List.range MAX_BLOCKS) _ (fun x _ => rfl)).symm
  · show (0 : Nat) = live_count init_filesystem
    exact (sum_map_zero (List.range MAX_FILES) _ (fun x _ => rfl)).symm
  · show (0 : Nat) = live_size_sum init_filesystem
    exact (sum_map_zero (List.range MAX_FILES) _ (fun x _ => rfl)).symm
  · show live_blocks_sum init_filesystem = 0
    exact sum_map_zero (List.range MAX_FILES) _ (fun x _ => rfl)
  · intro b hb
    exact absurd hb (by simp [init_filesystem])
  · intro i _ hu
    exact absurd hu (by simp [init_filesystem, empty_entry])
  · intro i j _ _ _ hu
    exact absurd hu (by simp [init_filesystem, empty_entry])
  · intro b _ p
    rfl

/-- The success path of `create_file` preserves the invariant.  The new
state `fs2` is described field-by-field so the caller can discharge the
descriptions definitionally. -/
lemma wf_create_success (fs fs2 : FileSystem) (h : WF fs) (fname : String)
    (size nb file_index : Nat) (entry : FileEntry)
    (hidx : file_index < MAX_FILES)
    (hslot : (fs.file_table file_index).in_use = false)
    (hnb : nb = (size + BLOCK_SIZE - 1) / BLOCK_SIZE)
    (hsz : size ≠ 0)
    (hcap : fs.used_blocks + nb ≤ MAX_BLOCKS)
    (hentry : entry
      = FileEntry.mk (trunc_name fname) size nb (allocate_blocks nb fs).1 true)
    (hf2table : ∀ i, fs2.file_table i
      = if i = file_index then entry else (allocate_blocks nb fs).2.file_table i)
    (hf2map : fs2.block_map = (allocate_blocks nb fs).2.block_map)
    (hf2blocks : fs2.blocks = (allocate_blocks nb fs).2.blocks)
    (hf2nf : fs2.num_files = (allocate_blocks nb fs).2.num_files + 1)
    (hf2used : fs2.used_blocks = (allocate_blocks nb fs).2.used_blocks)
    (hf2ts : fs2.total_storage = (allocate_blocks nb fs).2.total_storage + size) :
    WF fs2 := by
  have hBS : BLOCK_SIZE = 512 := rfl
  have hn : 0 < nb := by
    rw [hnb, hBS]
    have h1 : (1:Nat) ≤ (size + 512 - 1) / 512 := by
      apply (Nat.one_le_div_iff (by omega)).mpr
      omega
    omega
  obtain ⟨hlen, hnodup, hmlt, hmfree, hmap, hused, hblockseq, htable, hnf, hts⟩ :=
    allocate_spec fs nb h.used_eq hn hcap
  have htable2 : ∀ i, fs2.file_table i
      = if i = file_index then entry else fs.file_table i := by
    intro i
    rw [hf2table i, htable]
  have hceil : size ≤ BLOCK_SIZE * nb := by
    rw [hnb, hBS]
    have hdm := Nat.div_add_mod (size + 512 - 1) 512
    have hml : (size + 512 - 1) % 512 < 512 := Nat.mod_lt _ (by omega)
    omega
  refine ⟨?_, ?_, ?_, ?_, ?_, ?_, ?_, ?_⟩
  · rw [hf2used, hused, hf2map]
    have hcount := count_occupied_mem_list (allocate_blocks nb fs).1 fs.block_map
      (allocate_blocks nb fs).2.block_map hnodup hmlt hmfree hmap
    rw [hcount, hlen]
    have hue := h.used_eq
    omega
  · have hlc := live_sum_generic fs fs2 file_index entry (fun _ => 1) hidx htable2
    have hlc2 : live_count fs2
          + (if (fs.file_table file_index).in_use = true then 1 else 0)
        = live_count fs + (if entry.in_use = true then 1 else 0) := hlc
    rw [hslot, hentry] at hlc2
    simp at hlc2
    rw [hf2nf, hnf]
    have hfe := h.files_eq
    omega
  · have hlc := live_sum_generic fs fs2 file_index entry (fun e2 => e2.size) hidx htable2
    have hlc2 : live_size_sum fs2
          + (if (fs.file_table file_index).in_use = true
              then (fs.file_table file_index).size else 0)
        = live_size_sum fs + (if entry.in_use = true then entry.size else 0) := hlc
    rw [hslot, hentry] at hlc2
    simp at hlc2
    rw [hf2ts, hts]
    have hse := h.storage_eq
    omega
  · have hlc := live_sum_generic fs fs2 file_index entry (fun e2 => e2.num_blocks)
      hidx htable2
    have hlc2 : live_blocks_sum fs2
          + (if (fs.file_table file_index).in_use = true
              then (fs.file_table file_index).num_blocks else 0)
        = live_blocks_sum fs + (if entry.in_use = true then entry.num_blocks else 0) := hlc
    rw [hslot, hentry] at hlc2
    simp at hlc2
    rw [hf2used, hused]
    have hbe := h.blocks_sum_eq
    omega
  · intro b hb
    rw [hf2map, hmap b] at hb
    by_cases hmem : b ∈ (allocate_blocks nb fs).1
    · exact hmlt b hmem
    · rw [if_neg hmem] at hb
      exact h.map_lt b hb
  · intro i hi hu
    unfold EntryOK
    by_cases hieq : i = file_index
    · subst hieq
      have he : fs2.file_table i = entry := by
        rw [htable2 i, if_pos rfl]
      rw [he, hentry]
      refine ⟨hlen, hnodup, ?_, hceil⟩
      intro b hb
      have hb2 : b ∈ (allocate_blocks nb fs).1 := hb
      refine ⟨hmlt b hb2, ?_⟩
      rw [hf2map, hmap b, if_pos hb2]
    · have he : fs2.file_table i = fs.file_table i := by
        rw [htable2 i, if_neg hieq]
      have hu2 : (fs.file_table i).in_use = true := by
        rw [← he]
        exact hu
      obtain ⟨e1, e2, e3, e4⟩ := h.entries i hi hu2
      rw [he]
      refine ⟨e1, e2, ?_, e4⟩
      intro b hb
      refine ⟨(e3 b hb).1, ?_⟩
      rw [hf2map, hmap b]
      by_cases hmem : b ∈ (allocate_blocks nb fs).1
      · rw [if_pos hmem]
      · rw [if_neg hmem]
        exact (e3 b hb).2
  · have hcases : ∀ k, (fs2.file_table k).in_use = true →
        (k = file_index ∧ fs2.file_table k = entry) ∨
        (k ≠ file_index ∧ fs2.file_table k = fs.file_table k
          ∧ (fs.file_table k).in_use = true) := by
      intro k hk
      by_cases hke : k = file_index
      · left
        refine ⟨hke, ?_⟩
        rw [htable2 k, if_pos hke]
      · right
        have heq : fs2.file_table k = fs.file_table k := by
          rw [htable2 k, if_neg hke]
        exact ⟨hke, heq, heq ▸ hk⟩
    intro i j hi hj hij hui huj b hbi hbj
    rcases hcases i hui with ⟨hie, hei⟩ | ⟨hine, hei, huoi⟩
    · rcases hcases j huj with ⟨hje, hej⟩ | ⟨hjne, hej, huoj⟩
      · exact hij (hie.trans hje.symm)
      · rw [hei, hentry] at hbi
        have hbi2 : b ∈ (allocate_blocks nb fs).1 := hbi
        have hfree := hmfree b hbi2
        rw [hej] at hbj
        have hocc := ((h.entries j hj huoj).2.2.1 b hbj).2
        rw [hfree] at hocc
        exact absurd hocc (by decide)
    · rcases hcases j huj with ⟨hje, hej⟩ | ⟨hjne, hej, huoj⟩
      · rw [hej, hentry] at hbj
        have hbj2 : b ∈ (allocate_blocks nb fs).1 := hbj
        have hfree := hmfree b hbj2
        rw [hei] at hbi
        have hocc := ((h.entries i hi huoi).2.2.1 b hbi).2
        rw [hfree] at hocc
        exact absurd hocc (by decide)
      · rw [hei] at hbi
        rw [hej] at hbj
        exact h.disjoint i j hi hj hij huoi huoj b hbi hbj
  · intro b hb p
    rw [hf2map, hmap b] at hb
    by_cases hmem : b ∈ (allocate_blocks nb fs).1
    · rw [if_pos hmem] at hb
      exact absurd hb (by decide)
    · rw [if_neg hmem] at hb
      rw [hf2blocks, hblockseq]
      exact h.free_zero b hb p

lemma wf_create (fs : FileSystem) (h : WF fs) (fname : String) (size : Nat) :
    WF (create_file fname size fs).2 := by
  simp only [create_file]
  split
  next => exact h
  next hname =>
    split
    next => exact h
    next hsz =>
      split
      next => exact h
      next hszmax =>
        split
        next => exact h
        next hexists =>
          split
          next => exact h
          next hnumf =>
            split
            next => exact h
            next hcap6 =>
              split
              next => exact h
              next file_index hfind =>
                split
                next halloc_lt =>
                  exfalso
                  have hBS : BLOCK_SIZE = 512 := rfl
                  have hn : 0 < (size + BLOCK_SIZE - 1) / BLOCK_SIZE := by
                    rw [hBS]
                    have h1 : (1:Nat) ≤ (size + 512 - 1) / 512 := by
                      apply (Nat.one_le_div_iff (by omega)).mpr
                      omega
                    omega
                  have hcap : fs.used_blocks + (size + BLOCK_SIZE - 1) / BLOCK_SIZE
                      ≤ MAX_BLOCKS := by omega
                  have hspec := allocate_spec fs _ h.used_eq hn hcap
                  have hl := hspec.len
                  omega
                next halloc_ge =>
                  have hidx : file_index < MAX_FILES := range_find?_lt _ _ _ hfind
                  have hslot : (fs.file_table file_index).in_use = false := by
                    have hp := (range_find?_least _ _ _ hfind).1
                    simpa using hp
                  have hcap : fs.used_blocks + (size + BLOCK_SIZE - 1) / BLOCK_SIZE
                      ≤ MAX_BLOCKS := by omega
                  exact wf_create_success fs _ h fname size _ file_index _ hidx hslot
                    rfl hsz hcap rfl (fun i => rfl) rfl rfl rfl rfl rfl

lemma read_state (fname : String) (offset size : Nat) (fs : FileSystem) :
    (read_file fname offset size fs).2 = fs := by
  simp only [read_file]
  split
  next => rfl
  next =>
    split
    next => rfl
    next =>
      split
      next => rfl
      next => rfl

lemma wf_read (fs : FileSystem) (h : WF fs) (fname : String) (offset size : Nat) :
    WF (read_file fname offset size fs).2 := by
  rw [read_state]
  exact h

lemma wf_write (fs : FileSystem) (h : WF fs) (fname : String) (offset : Nat)
    (data : List Nat) : WF (write_file fname offset data fs).2 := by
  simp only [write_file]
  split
  next => exact h
  next idx hfind =>
    split
    next => exact h
    next hoff =>
      split
      next => exact h
      next hbound =>
        obtain ⟨hidx, hu, hname⟩ := find_file_some fname fs idx hfind
        obtain ⟨e1, e2, e3, e4⟩ := h.entries idx hidx hu
        refine ⟨h.used_eq, h.files_eq, h.storage_eq, h.blocks_sum_eq, h.map_lt,
          h.entries, h.disjoint, ?_⟩
        intro b hb p
        have hb2 : fs.block_map b = false := hb
        have hnotin : b ∉ (((fs.file_table idx).blocks.take
            (fs.file_table idx).num_blocks).drop (offset / BLOCK_SIZE)) := by
          intro hmem
          have hmem2 : b ∈ (fs.file_table idx).blocks :=
            List.mem_of_mem_take (List.mem_of_mem_drop hmem)
          have hocc := (e3 b hmem2).2
          rw [hb2] at hocc
          exact absurd hocc (by decide)
        show (write_loop fs.blocks (((fs.file_table idx).blocks.take
            (fs.file_table idx).num_blocks).drop (offset / BLOCK_SIZE))
            (offset % BLOCK_SIZE) (data.take (strLen data))).1 b p = 0
        rw [write_loop_other _ fs.blocks _ _ b hnotin p]
        exact h.free_zero b hb2 p


/-- The success path of `delete_file` preserves the invariant. -/
lemma wf_delete_success (fs fs2 : FileSystem) (h : WF fs) (idx : Nat)
    (hidx : idx < MAX_FILES) (hu : (fs.file_table idx).in_use = true)
    (hf2table : ∀ i, fs2.file_table i = if i = idx then empty_entry
      else (free_blocks (fs.file_table idx).num_blocks
        (fs.file_table idx).blocks fs).file_table i)
    (hf2map : fs2.block_map = (free_blocks (fs.file_table idx).num_blocks
      (fs.file_table idx).blocks fs).block_map)
    (hf2blocks : fs2.blocks = (free_blocks (fs.file_table idx).num_blocks
      (fs.file_table idx).blocks fs).blocks)
    (hf2nf : fs2.num_files = (free_blocks (fs.file_table idx).num_blocks
      (fs.file_table idx).blocks fs).num_files - 1)
    (hf2used : fs2.used_blocks = (free_blocks (fs.file_table idx).num_blocks
      (fs.file_table idx).blocks fs).used_blocks)
    (hf2ts : fs2.total_storage = (free_blocks (fs.file_table idx).num_blocks
      (fs.file_table idx).blocks fs).total_storage - (fs.file_table idx).size) :
    WF fs2 := by
  obtain ⟨e1, e2, e3, e4⟩ := h.entries idx hidx hu
  have htake : (fs.file_table idx).blocks.take (fs.file_table idx).num_blocks
      = (fs.file_table idx).blocks := by
    rw [← e1]
    exact List.take_length _
  have hFB : free_blocks (fs.file_table idx).num_blocks (fs.file_table idx).blocks fs
      = (fs.file_table idx).blocks.foldl free_one fs := by
    unfold free_blocks
    rw [htake]
  obtain ⟨f1, f2, f3, f4, f5, f6⟩ := free_fold_spec (fs.file_table idx).blocks fs e2 e3
  have hcnt := count_occupied_unmark_list (fs.file_table idx).blocks fs.block_map
    ((fs.file_table idx).blocks.foldl free_one fs).block_map e2
    (fun b hb => (e3 b hb).1) (fun b hb => (e3 b hb).2) f1
  have htable2 : ∀ i, fs2.file_table i
      = if i = idx then empty_entry else fs.file_table i := by
    intro i
    rw [hf2table i]
    by_cases hie : i = idx
    · rw [if_pos hie, if_pos hie]
    · rw [if_neg hie, if_neg hie, hFB, f4]
  refine ⟨?_, ?_, ?_, ?_, ?_, ?_, ?_, ?_⟩
  · rw [hf2used, hf2map, hFB, f3]
    have hue := h.used_eq
    omega
  · have hlc := live_sum_generic fs fs2 idx empty_entry (fun _ => 1) hidx htable2
    have hlc2 : live_count fs2 + (if (fs.file_table idx).in_use = true then 1 else 0)
        = live_count fs + (if empty_entry.in_use = true then 1 else 0) := hlc
    rw [hu] at hlc2
    simp [empty_entry] at hlc2
    rw [hf2nf, hFB, f5]
    have hfe := h.files_eq
    omega
  · have hlc := live_sum_generic fs fs2 idx empty_entry (fun e => e.size) hidx htable2
    have hlc2 : live_size_sum fs2 + (if (fs.file_table idx).in_use = true
          then (fs.file_table idx).size else 0)
        = live_size_sum fs
          + (if empty_entry.in_use = true then empty_entry.size else 0) := hlc
    rw [hu] at hlc2
    simp [empty_entry] at hlc2
    rw [hf2ts, hFB, f6]
    have hse := h.storage_eq
    omega
  · have hlc := live_sum_generic fs fs2 idx empty_entry (fun e => e.num_blocks)
      hidx htable2
    have hlc2 : live_blocks_sum fs2 + (if (fs.file_table idx).in_use = true
          then (fs.file_table idx).num_blocks else 0)
        = live_blocks_sum fs
          + (if empty_entry.in_use = true then empty_entry.num_blocks else 0) := hlc
    rw [hu] at hlc2
    simp [empty_entry] at hlc2
    rw [hf2used, hFB, f3]
    have hbe := h.blocks_sum_eq
    have he1 := e1
    omega
  · intro b hb
    rw [hf2map, hFB, f1 b] at hb
    by_cases hmem : b ∈ (fs.file_table idx).blocks
    · rw [if_pos hmem] at hb
      exact absurd hb (by decide)
    · rw [if_neg hmem] at hb
      exact h.map_lt b hb
  · intro i hi hui
    by_cases hie : i = idx
    · exfalso
      rw [htable2 i, if_pos hie] at hui
      exact absurd hui (by simp [empty_entry])
    · have he : fs2.file_table i = fs.file_table i := by
        rw [htable2 i, if_neg hie]
      have hu2 : (fs.file_table i).in_use = true := by
        rw [← he]
        exact hui
      obtain ⟨g1, g2, g3, g4⟩ := h.entries i hi hu2
      unfold EntryOK
      rw [he]
      refine ⟨g1, g2, ?_, g4⟩
      intro b hb
      refine ⟨(g3 b hb).1, ?_⟩
      have hdisj := h.disjoint i idx hi hidx hie hu2 hu b hb
      rw [hf2map, hFB, f1 b, if_neg hdisj]
      exact (g3 b hb).2
  · intro i j hi hj hij hui huj b hbi hbj
    by_cases hie : i = idx
    · rw [htable2 i, if_pos hie] at hui
      exact absurd hui (by simp [empty_entry])
    · by_cases hje : j = idx
      · rw [htable2 j, if_pos hje] at huj
        exact absurd huj (by simp [empty_entry])
      · rw [htable2 i, if_neg hie] at hui hbi
        rw [htable2 j, if_neg hje] at huj hbj
        exact h.disjoint i j hi hj hij hui huj b hbi hbj
  · intro b hb p
    rw [hf2map, hFB, f1 b] at hb
    rw [hf2blocks, hFB, f2 b p]
    by_cases hmem : b ∈ (fs.file_table idx).blocks
    · rw [if_pos hmem]
    · rw [if_neg hmem] at hb
      rw [if_neg hmem]
      exact h.free_zero b hb p

lemma wf_delete (fs : FileSystem) (h : WF fs) (fname : String) :
    WF (delete_file fname fs).2 := by
  simp only [delete_file]
  split
  next => exact h
  next idx hfind =>
    obtain ⟨hidx, hu, hname⟩ := find_file_some fname fs idx hfind
    exact wf_delete_success fs _ h idx hidx hu (fun i => rfl) rfl rfl rfl rfl rfl

lemma wf_apply (fs : FileSystem) (h : WF fs) (op : Op) : WF (apply_op fs op) := by
  cases op with
  | create fname size => exact wf_create fs h fname size
  | write fname offset data => exact wf_write fs h fname offset data
  | read fname offset size => exact wf_read fs h fname offset size
  | delete fname => exact wf_delete fs h fname
  | list => exact h

lemma wf_run_from (ops : List Op) :
    ∀ fs : FileSystem, WF fs → WF (ops.foldl apply_op fs) := by
  induction ops with
  | nil => intro fs h; exact h
  | cons op rest ih =>
    intro fs h
    exact ih (apply_op fs op) (wf_apply fs h op)

/-- Every reachable state satisfies the master invariant. -/
lemma reachable_wf (fs : FileSystem) (h : Reachable fs) : WF fs := by
  obtain ⟨ops, hops⟩ := h
  rw [← hops]
  exact wf_run_from ops init_filesystem wf_init

/-! ## Path equations for the operations -/

lemma not_isSome_none {α : Type} (o : Option α) (h : ¬(o.isSome = true)) : o = none := by
  cases o with
  | none => rfl
  | some v => simp at h

/-- The success path of `create_file`, as one equation. -/
lemma create_file_eq_of (fs : FileSystem) (fname : String) (size : Nat) (file_index : Nat)
    (hname : ¬(fname.length = 0)) (hsz : ¬(size = 0)) (hszmax : ¬(size > MAX_FILE_SIZE))
    (hex : ¬((find_file fname fs).isSome = true))
    (hnumf : ¬(fs.num_files ≥ MAX_FILES))
    (hcap : ¬(fs.used_blocks + (size + BLOCK_SIZE - 1) / BLOCK_SIZE > MAX_BLOCKS))
    (hfind : (List.range MAX_FILES).find? (fun i => !(fs.file_table i).in_use)
      = some file_index)
    (hlen : ¬((allocate_blocks ((size + BLOCK_SIZE - 1) / BLOCK_SIZE) fs).1.length
      < (size + BLOCK_SIZE - 1) / BLOCK_SIZE)) :
    create_file fname size fs = (.ok (), FileSystem.mk
      (allocate_blocks ((size + BLOCK_SIZE - 1) / BLOCK_SIZE) fs).2.blocks
      (allocate_blocks ((size + BLOCK_SIZE - 1) / BLOCK_SIZE) fs).2.block_map
      (fun i => if i = file_index
        then FileEntry.mk (trunc_name fname) size ((size + BLOCK_SIZE - 1) / BLOCK_SIZE)
          (allocate_blocks ((size + BLOCK_SIZE - 1) / BLOCK_SIZE) fs).1 true
        else (allocate_blocks ((size + BLOCK_SIZE - 1) / BLOCK_SIZE) fs).2.file_table i)
      ((allocate_blocks ((size + BLOCK_SIZE - 1) / BLOCK_SIZE) fs).2.num_files + 1)
      (allocate_blocks ((size + BLOCK_SIZE - 1) / BLOCK_SIZE) fs).2.used_blocks
      ((allocate_blocks ((size + BLOCK_SIZE - 1) / BLOCK_SIZE) fs).2.total_storage + size)) := by
  simp only [create_file]
  rw [if_neg hname, if_neg hsz, if_neg hszmax, if_neg hex, if_neg hnumf, if_neg hcap]
  simp only [hfind]
  rw [if_neg hlen]

/-- The success path of `write_file`, as one equation. -/
lemma write_file_eq_of (fs : FileSystem) (fname : String) (offset : Nat)
    (data : List Nat) (idx : Nat)
    (hfind : find_file fname fs = some idx)
    (hoff : ¬(offset > (fs.file_table idx).size))
    (hbound : ¬(offset + strLen data > (fs.file_table idx).size)) :
    write_file fname offset data fs =
      (.ok (WriteResult.mk (write_loop fs.blocks
          (((fs.file_table idx).blocks.take (fs.file_table idx).num_blocks).drop
            (offset / BLOCK_SIZE)) (offset % BLOCK_SIZE) (data.take (strLen data))).2 0),
       FileSystem.mk (write_loop fs.blocks
          (((fs.file_table idx).blocks.take (fs.file_table idx).num_blocks).drop
            (offset / BLOCK_SIZE)) (offset % BLOCK_SIZE) (data.take (strLen data))).1
        fs.block_map fs.file_table fs.num_files fs.used_blocks fs.total_storage) := by
  simp only [write_file]
  simp only [hfind]
  rw [if_neg hoff, if_neg hbound]

lemma write_file_invalid_offset (fs : FileSystem) (fname : String) (offset : Nat)
    (data : List Nat) (idx : Nat)
    (hfind : find_file fname fs = some idx)
    (hoff : offset > (fs.file_table idx).size) :
    write_file fname offset data fs = (.error .invalidOffset, fs) := by
  simp only [write_file]
  simp only [hfind]
  rw [if_pos hoff]

lemma write_file_oob (fs : FileSystem) (fname : String) (offset : Nat)
    (data : List Nat) (idx : Nat)
    (hfind : find_file fname fs = some idx)
    (hoff : ¬(offset > (fs.file_table idx).size))
    (hbound : offset + strLen data > (fs.file_table idx).size) :
    write_file fname offset data fs = (.error .outOfBounds, fs) := by
  simp only [write_file]
  simp only [hfind]
  rw [if_neg hoff, if_pos hbound]

/-- The success path of `read_file`, as one equation. -/
lemma read_file_eq_of (fs : FileSystem) (fname : String) (offset size : Nat) (idx : Nat)
    (hsz : ¬(size = 0))
    (hfind : find_file fname fs = some idx)
    (hoff : ¬(offset ≥ (fs.file_table idx).size)) :
    read_file fname offset size fs =
      (.ok (ReadResult.mk (read_loop fs.blocks
          (((fs.file_table idx).blocks.take (fs.file_table idx).num_blocks).drop
            (offset / BLOCK_SIZE)) (offset % BLOCK_SIZE)
          (if offset + size > (fs.file_table idx).size
            then (fs.file_table idx).size - offset else size)) 0 0),
       fs) := by
  simp only [read_file]
  rw [if_neg hsz]
  simp only [hfind]
  rw [if_neg hoff]

lemma read_file_invalid_offset (fs : FileSystem) (fname : String) (offset size : Nat)
    (idx : Nat) (hsz : ¬(size = 0))
    (hfind : find_file fname fs = some idx)
    (hoff : offset ≥ (fs.file_table idx).size) :
    read_file fname offset size fs = (.error .invalidOffset, fs) := by
  simp only [read_file]
  rw [if_neg hsz]
  simp only [hfind]
  rw [if_pos hoff]

/-! ## String and C-string helpers -/

lemma trunc_name_eq (fname : String) (h : fname.length ≤ MAX_FILENAME - 1) :
    trunc_name fname = fname := by
  unfold trunc_name
  have h2 : fname.data.length ≤ MAX_FILENAME - 1 := h
  rw [List.take_of_length_le h2]

lemma takeWhile_nz_eq (data : List Nat) (h : ∀ x ∈ data, x ≠ 0) :
    data.takeWhile (fun x => x != 0) = data := by
  induction data with
  | nil => rfl
  | cons d ds ih =>
    have hd : (d != 0) = true := by
      simpa using h d (List.mem_cons_self d ds)
    rw [List.takeWhile_cons, hd]
    simp only [if_true]
    rw [ih (fun x hx => h x (List.mem_cons_of_mem d hx))]

lemma strLen_eq_length (data : List Nat) (h : ∀ x ∈ data, x ≠ 0) :
    strLen data = data.length := by
  unfold strLen
  rw [takeWhile_nz_eq data h]

lemma strLen_le (data : List Nat) : strLen data ≤ data.length := by
  unfold strLen
  induction data with
  | nil => simp
  | cons d ds ih =>
    rw [List.takeWhile_cons]
    by_cases hd : (d != 0) = true
    · rw [hd]
      simpa using ih
    · rw [Bool.not_eq_true] at hd
      rw [hd]
      simp

lemma take_strLen (data : List Nat) :
    data.take (strLen data) = data.takeWhile (fun x => x != 0) := by
  unfold strLen
  induction data with
  | nil => rfl
  | cons d ds ih =>
    rw [List.takeWhile_cons]
    by_cases hd : (d != 0) = true
    · rw [hd]
      simp only [if_true, List.length_cons, List.take_succ_cons]
      rw [ih]
    · rw [Bool.not_eq_true] at hd
      rw [hd]
      simp

/-- What a successful `create_file` guarantees about the path taken. -/
lemma create_ok_facts (fs : FileSystem) (fname : String) (size : Nat)
    (hok : (create_file fname size fs).1 = .ok ()) :
    ∃ file_index,
      ¬(fname.length = 0) ∧ ¬(size = 0) ∧ ¬(size > MAX_FILE_SIZE) ∧
      find_file fname fs = none ∧ ¬(fs.num_files ≥ MAX_FILES) ∧
      ¬(fs.used_blocks + (size + BLOCK_SIZE - 1) / BLOCK_SIZE > MAX_BLOCKS) ∧
      (List.range MAX_FILES).find? (fun i => !(fs.file_table i).in_use)
        = some file_index ∧
      ¬((allocate_blocks ((size + BLOCK_SIZE - 1) / BLOCK_SIZE) fs).1.length
        < (size + BLOCK_SIZE - 1) / BLOCK_SIZE) := by
  simp only [create_file] at hok
  split at hok
  next => simp at hok
  next hname =>
    split at hok
    next => simp at hok
    next hsz =>
      split at hok
      next => simp at hok
      next hszmax =>
        split at hok
        next => simp at hok
        next hex =>
          split at hok
          next => simp at hok
          next hnumf =>
            split at hok
            next => simp at hok
            next hcap =>
              split at hok
              next => simp at hok
              next file_index hfind =>
                split at hok
                next => simp at hok
                next hlen =>
                  exact ⟨file_index, hname, hsz, hszmax,
                    not_isSome_none _ hex, hnumf, hcap, hfind, hlen⟩

/-- Facts about the state after a successful `create_file` (with a name
short enough to survive `strncpy` truncation unchanged). -/
lemma create_post_facts (fs : FileSystem) (hwf : WF fs) (fname : String) (size : Nat)
    (hname : fname.length ≤ MAX_FILENAME - 1)
    (hok : (create_file fname size fs).1 = .ok ()) :
    ∃ file_index,
      find_file fname (create_file fname size fs).2 = some file_index ∧
      ((create_file fname size fs).2.file_table file_index).size = size ∧
      ((create_file fname size fs).2.file_table file_index).num_blocks
        = (size + BLOCK_SIZE - 1) / BLOCK_SIZE ∧
      ((create_file fname size fs).2.file_table file_index).blocks.length
        = (size + BLOCK_SIZE - 1) / BLOCK_SIZE ∧
      ((create_file fname size fs).2.file_table file_index).blocks.Nodup ∧
      (∀ b ∈ ((create_file fname size fs).2.file_table file_index).blocks,
        ∀ p, (create_file fname size fs).2.blocks b p = 0) ∧
      size ≤ BLOCK_SIZE * ((size + BLOCK_SIZE - 1) / BLOCK_SIZE) ∧
      size ≠ 0 := by
  obtain ⟨file_index, hname0, hsz, hszmax, hfindnone, hnumf, hcap, hfind, hlen⟩ :=
    create_ok_facts fs fname size hok
  have heq := create_file_eq_of fs fname size file_index hname0 hsz hszmax
    (by rw [hfindnone]; simp) hnumf hcap hfind hlen
  have hBS : BLOCK_SIZE = 512 := rfl
  have hn : 0 < (size + BLOCK_SIZE - 1) / BLOCK_SIZE := by
    rw [hBS]
    have h1 : (1:Nat) ≤ (size + 512 - 1) / 512 := by
      apply (Nat.one_le_div_iff (by omega)).mpr
      omega
    omega
  have hcap2 : fs.used_blocks + (size + BLOCK_SIZE - 1) / BLOCK_SIZE ≤ MAX_BLOCKS := by
    omega
  obtain ⟨halen, hnodup, hmlt, hmfree, hmap, hused, hblockseq, htable, hnf, hts⟩ :=
    allocate_spec fs _ hwf.used_eq hn hcap2
  have hidx : file_index < MAX_FILES := range_find?_lt _ _ _ hfind
  have hft : ∀ i, (create_file fname size fs).2.file_table i
      = if i = file_index
        then FileEntry.mk (trunc_name fname) size ((size + BLOCK_SIZE - 1) / BLOCK_SIZE)
          (allocate_blocks ((size + BLOCK_SIZE - 1) / BLOCK_SIZE) fs).1 true
        else fs.file_table i := by
    intro i
    rw [heq]
    show (if i = file_index
        then FileEntry.mk (trunc_name fname) size ((size + BLOCK_SIZE - 1) / BLOCK_SIZE)
          (allocate_blocks ((size + BLOCK_SIZE - 1) / BLOCK_SIZE) fs).1 true
        else (allocate_blocks ((size + BLOCK_SIZE - 1) / BLOCK_SIZE) fs).2.file_table i)
      = _
    rw [htable]
  have hftidx : (create_file fname size fs).2.file_table file_index
      = FileEntry.mk (trunc_name fname) size ((size + BLOCK_SIZE - 1) / BLOCK_SIZE)
        (allocate_blocks ((size + BLOCK_SIZE - 1) / BLOCK_SIZE) fs).1 true := by
    rw [hft file_index, if_pos rfl]
  refine ⟨file_index, ?_, ?_, ?_, ?_, ?_, ?_, ?_, hsz⟩
  · apply find_file_unique fname _ file_index hidx
    · rw [hftidx]
    · rw [hftidx]
      show trunc_name fname = fname
      exact trunc_name_eq fname hname
    · intro j hjlt hj hcontra
      rw [hft j, if_neg hj] at hcontra
      exact find_file_none fname fs hfindnone j hjlt hcontra.1 hcontra.2
  · rw [hftidx]
  · rw [hftidx]
  · rw [hftidx]
    exact halen
  · rw [hftidx]
    exact hnodup
  · intro b hb p
    rw [hftidx] at hb
    have hb2 : b ∈ (allocate_blocks ((size + BLOCK_SIZE - 1) / BLOCK_SIZE) fs).1 := hb
    have hfree := hmfree b hb2
    have hblk : (create_file fname size fs).2.blocks = fs.blocks := by
      rw [heq]
      show (allocate_blocks ((size + BLOCK_SIZE - 1) / BLOCK_SIZE) fs).2.blocks
        = fs.blocks
      exact hblockseq
    rw [hblk]
    exact hwf.free_zero b hfree p
  · rw [hBS]
    have hdm := Nat.div_add_mod (size + 512 - 1) 512
    have hml : (size + 512 - 1) % 512 < 512 := Nat.mod_lt _ (by omega)
    omega

/-- The round-trip chain: create, write nonzero data in bounds, read it
back unchanged. -/
lemma create_write_read (fs : FileSystem) (hwf : WF fs) (fname : String) (S O : Nat)
    (data : List Nat)
    (hname : fname.length ≤ MAX_FILENAME - 1)
    (hok : (create_file fname S fs).1 = .ok ())
    (hdata : ∀ x ∈ data, x ≠ 0)
    (hlen : 0 < data.length)
    (hbound : O + data.length ≤ S) :
    (write_file fname O data (create_file fname S fs).2).1
        = .ok (WriteResult.mk data.length 0) ∧
    (read_file fname O data.length
        ((write_file fname O data (create_file fname S fs).2).2)).1
      = .ok (ReadResult.mk data 0 0) := by
  obtain ⟨idx, hfind2, hsize, hnb, hblen, hnodup, hzero, hceil, hSnz⟩ :=
    create_post_facts fs hwf fname S hname hok
  have hstrlen : strLen data = data.length := strLen_eq_length data hdata
  have hoff : ¬(O > ((create_file fname S fs).2.file_table idx).size) := by
    rw [hsize]
    omega
  have hbound2 : ¬(O + strLen data
      > ((create_file fname S fs).2.file_table idx).size) := by
    rw [hsize, hstrlen]
    omega
  have hweq := write_file_eq_of (create_file fname S fs).2 fname O data idx
    hfind2 hoff hbound2
  have htake : data.take (strLen data) = data := by
    rw [hstrlen]
    exact List.take_length _
  have hnum_len : ((create_file fname S fs).2.file_table idx).num_blocks
      = ((create_file fname S fs).2.file_table idx).blocks.length := by
    rw [hnb, hblen]
  have hbltake : ((create_file fname S fs).2.file_table idx).blocks.take
      ((create_file fname S fs).2.file_table idx).num_blocks
      = ((create_file fname S fs).2.file_table idx).blocks := by
    rw [hnum_len]
    exact List.take_length _
  have hblnodup : ((((create_file fname S fs).2.file_table idx).blocks.take
      ((create_file fname S fs).2.file_table idx).num_blocks).drop
      (O / BLOCK_SIZE)).Nodup := by
    rw [hbltake]
    exact (List.drop_sublist _ _).nodup hnodup
  have hBS : BLOCK_SIZE = 512 := rfl
  have hpos : O % BLOCK_SIZE < BLOCK_SIZE := Nat.mod_lt _ (by decide)
  have hbllen : ((((create_file fname S fs).2.file_table idx).blocks.take
      ((create_file fname S fs).2.file_table idx).num_blocks).drop
      (O / BLOCK_SIZE)).length
      = ((create_file fname S fs).2.file_table idx).blocks.length
        - O / BLOCK_SIZE := by
    rw [hbltake, List.length_drop]
  have hcapL : O % BLOCK_SIZE + data.length ≤ BLOCK_SIZE
      * ((((create_file fname S fs).2.file_table idx).blocks.take
        ((create_file fname S fs).2.file_table idx).num_blocks).drop
        (O / BLOCK_SIZE)).length := by
    rw [hbllen, hblen, hBS]
    rw [hBS] at hceil
    have hdm := Nat.div_add_mod O 512
    have hml : O % 512 < 512 := Nat.mod_lt _ (by omega)
    omega
  have hwcount : (write_loop (create_file fname S fs).2.blocks
      ((((create_file fname S fs).2.file_table idx).blocks.take
        ((create_file fname S fs).2.file_table idx).num_blocks).drop
        (O / BLOCK_SIZE)) (O % BLOCK_SIZE) (data.take (strLen data))).2
      = data.length := by
    rw [htake]
    exact write_loop_count _ _ _ data hpos hcapL
  constructor
  · rw [hweq]
    show Except.ok (WriteResult.mk (write_loop (create_file fname S fs).2.blocks
        ((((create_file fname S fs).2.file_table idx).blocks.take
          ((create_file fname S fs).2.file_table idx).num_blocks).drop
          (O / BLOCK_SIZE)) (O % BLOCK_SIZE) (data.take (strLen data))).2 0)
      = Except.ok (WriteResult.mk data.length 0)
    rw [hwcount]
  · have hft3 : (write_file fname O data (create_file fname S fs).2).2.file_table
        = (create_file fname S fs).2.file_table := by
      rw [hweq]
    have hblocks3 : (write_file fname O data (create_file fname S fs).2).2.blocks
        = (write_loop (create_file fname S fs).2.blocks
          ((((create_file fname S fs).2.file_table idx).blocks.take
            ((create_file fname S fs).2.file_table idx).num_blocks).drop
            (O / BLOCK_SIZE)) (O % BLOCK_SIZE) (data.take (strLen data))).1 := by
      rw [hweq]
    have hfind3 : find_file fname (write_file fname O data (create_file fname S fs).2).2
        = some idx := by
      unfold find_file at hfind2 ⊢
      simp only [hft3]
      exact hfind2
    have hsz3 : ¬(data.length = 0) := by omega
    have hoff3 : ¬(O ≥ ((write_file fname O data
        (create_file fname S fs).2).2.file_table idx).size) := by
      rw [hft3, hsize]
      omega
    have hreq := read_file_eq_of (write_file fname O data (create_file fname S fs).2).2
      fname O data.length idx hsz3 hfind3 hoff3
    rw [hreq]
    show Except.ok (ReadResult.mk (read_loop
        (write_file fname O data (create_file fname S fs).2).2.blocks
        ((((write_file fname O data (create_file fname S fs).2).2.file_table idx).blocks.take
          ((write_file fname O data
            (create_file fname S fs).2).2.file_table idx).num_blocks).drop
          (O / BLOCK_SIZE)) (O % BLOCK_SIZE)
        (if O + data.length
            > ((write_file fname O data (create_file fname S fs).2).2.file_table idx).size
          then ((write_file fname O data
            (create_file fname S fs).2).2.file_table idx).size - O
          else data.length)) 0 0)
      = Except.ok (ReadResult.mk data 0 0)
    have hnoclamp : ¬(O + data.length
        > ((write_file fname O data (create_file fname S fs).2).2.file_table idx).size) := by
      rw [hft3, hsize]
      omega
    rw [if_neg hnoclamp, hft3, hblocks3, htake]
    rw [write_read_roundtrip _ _ _ data hblnodup hpos hcapL]

/-- A freshly created file reads back as zero bytes before any write. -/
lemma create_read_zeros (fs : FileSystem) (hwf : WF fs) (fname : String) (S O L : Nat)
    (hname : fname.length ≤ MAX_FILENAME - 1)
    (hok : (create_file fname S fs).1 = .ok ())
    (hL : 0 < L) (hbound : O + L ≤ S) :
    (read_file fname O L (create_file fname S fs).2).1
      = .ok (ReadResult.mk (List.replicate L 0) 0 0) := by
  obtain ⟨idx, hfind2, hsize, hnb, hblen, hnodup, hzero, hceil, hSnz⟩ :=
    create_post_facts fs hwf fname S hname hok
  have hsz2 : ¬(L = 0) := by omega
  have hoff2 : ¬(O ≥ ((create_file fname S fs).2.file_table idx).size) := by
    rw [hsize]
    omega
  have hreq := read_file_eq_of (create_file fname S fs).2 fname O L idx hsz2 hfind2 hoff2
  rw [hreq]
  show Except.ok (ReadResult.mk (read_loop (create_file fname S fs).2.blocks
      ((((create_file fname S fs).2.file_table idx).blocks.take
        ((create_file fname S fs).2.file_table idx).num_blocks).drop
        (O / BLOCK_SIZE)) (O % BLOCK_SIZE)
      (if O + L > ((create_file fname S fs).2.file_table idx).size
        then ((create_file fname S fs).2.file_table idx).size - O else L)) 0 0)
    = Except.ok (ReadResult.mk (List.replicate L 0) 0 0)
  have hnoclamp : ¬(O + L > ((create_file fname S fs).2.file_table idx).size) := by
    rw [hsize]
    omega
  rw [if_neg hnoclamp]
  have hnum_len : ((create_file fname S fs).2.file_table idx).num_blocks
      = ((create_file fname S fs).2.file_table idx).blocks.length := by
    rw [hnb, hblen]
  have hbltake : ((create_file fname S fs).2.file_table idx).blocks.take
      ((create_file fname S fs).2.file_table idx).num_blocks
      = ((create_file fname S fs).2.file_table idx).blocks := by
    rw [hnum_len]
    exact List.take_length _
  have hBS : BLOCK_SIZE = 512 := rfl
  have hpos : O % BLOCK_SIZE < BLOCK_SIZE := Nat.mod_lt _ (by decide)
  have hbllen : ((((create_file fname S fs).2.file_table idx).blocks.take
      ((create_file fname S fs).2.file_table idx).num_blocks).drop
      (O / BLOCK_SIZE)).length
      = ((create_file fname S fs).2.file_table idx).blocks.length - O / BLOCK_SIZE := by
    rw [hbltake, List.length_drop]
  have hcapL : O % BLOCK_SIZE + L ≤ BLOCK_SIZE
      * ((((create_file fname S fs).2.file_table idx).blocks.take
        ((create_file fname S fs).2.file_table idx).num_blocks).drop
        (O / BLOCK_SIZE)).length := by
    rw [hbllen, hblen, hBS]
    rw [hBS] at hceil
    have hdm := Nat.div_add_mod O 512
    have hml : O % 512 < 512 := Nat.mod_lt _ (by omega)
    omega
  have hz : ∀ b ∈ (((create_file fname S fs).2.file_table idx).blocks.take
      ((create_file fname S fs).2.file_table idx).num_blocks).drop (O / BLOCK_SIZE),
      ∀ p, (create_file fname S fs).2.blocks b p = 0 := by
    intro b hb p
    exact hzero b (List.mem_of_mem_take (List.mem_of_mem_drop hb)) p
  rw [read_loop_zero _ _ _ _ hz hpos hcapL]

/-- On every successful `write_file`, the reported byte count equals the
C-string length of the supplied data. -/
lemma write_ok_count (fs : FileSystem) (hwf : WF fs) (fname : String) (offset : Nat)
    (data : List Nat) (res : WriteResult)
    (hok : (write_file fname offset data fs).1 = .ok res) :
    res.bytes_written = strLen data := by
  simp only [write_file] at hok
  split at hok
  next => simp at hok
  next idx hfind =>
    split at hok
    next => simp at hok
    next hoff =>
      split at hok
      next => simp at hok
      next hbound =>
        simp only [] at hok
        have hres : Except.ok (WriteResult.mk (write_loop fs.blocks
            (((fs.file_table idx).blocks.take (fs.file_table idx).num_blocks).drop
              (offset / BLOCK_SIZE)) (offset % BLOCK_SIZE)
            (data.take (strLen data))).2 0)
            = Except.ok res := hok
        have hres2 := Except.ok.inj hres
        obtain ⟨hidx, hu, hnm⟩ := find_file_some fname fs idx hfind
        obtain ⟨e1, e2, e3, e4⟩ := hwf.entries idx hidx hu
        have hbltake : (fs.file_table idx).blocks.take (fs.file_table idx).num_blocks
            = (fs.file_table idx).blocks := by
          rw [← e1]
          exact List.take_length _
        have hBS : BLOCK_SIZE = 512 := rfl
        have hpos : offset % BLOCK_SIZE < BLOCK_SIZE := Nat.mod_lt _ (by decide)
        have htlen : (data.take (strLen data)).length = strLen data := by
          rw [List.length_take]
          have := strLen_le data
          omega
        have hcapL : offset % BLOCK_SIZE + (data.take (strLen data)).length
            ≤ BLOCK_SIZE * (((fs.file_table idx).blocks.take
              (fs.file_table idx).num_blocks).drop (offset / BLOCK_SIZE)).length := by
          rw [htlen, hbltake, List.length_drop, e1, hBS]
          rw [hBS] at e4
          have hdm := Nat.div_add_mod offset 512
          have hml : offset % 512 < 512 := Nat.mod_lt _ (by omega)
          omega
        have hcnt := write_loop_count _ fs.blocks (offset % BLOCK_SIZE)
          (data.take (strLen data)) hpos hcapL
        rw [← hres2]
        show (write_loop fs.blocks
            (((fs.file_table idx).blocks.take (fs.file_table idx).num_blocks).drop
              (offset / BLOCK_SIZE)) (offset % BLOCK_SIZE)
            (data.take (strLen data))).2 = strLen data
        rw [hcnt, htlen]

/-- A read past end-of-file from a valid offset is silently clamped and
produces exactly `size - offset` bytes. -/
lemma read_ok_clamped (fs : FileSystem) (hwf : WF fs) (fname : String) (O L idx : Nat)
    (hfind : find_file fname fs = some idx)
    (hOlt : O < (fs.file_table idx).size)
    (hclamp : (fs.file_table idx).size < O + L) :
    (read_file fname O L fs).1 = .ok (ReadResult.mk (read_loop fs.blocks
      (((fs.file_table idx).blocks.take (fs.file_table idx).num_blocks).drop
        (O / BLOCK_SIZE)) (O % BLOCK_SIZE) ((fs.file_table idx).size - O)) 0 0) ∧
    (read_loop fs.blocks (((fs.file_table idx).blocks.take
      (fs.file_table idx).num_blocks).drop (O / BLOCK_SIZE)) (O % BLOCK_SIZE)
      ((fs.file_table idx).size - O)).length = (fs.file_table idx).size - O := by
  obtain ⟨hidx, hu, hnm⟩ := find_file_some fname fs idx hfind
  obtain ⟨e1, e2, e3, e4⟩ := hwf.entries idx hidx hu
  have hszL : ¬(L = 0) := by omega
  have hoff : ¬(O ≥ (fs.file_table idx).size) := by omega
  have hreq := read_file_eq_of fs fname O L idx hszL hfind hoff
  have hdoclamp : (if O + L > (fs.file_table idx).size
      then (fs.file_table idx).size - O else L) = (fs.file_table idx).size - O := by
    rw [if_pos (by omega)]
  constructor
  · rw [hreq]
    show Except.ok (ReadResult.mk (read_loop fs.blocks
        (((fs.file_table idx).blocks.take (fs.file_table idx).num_blocks).drop
          (O / BLOCK_SIZE)) (O % BLOCK_SIZE)
        (if O + L > (fs.file_table idx).size
          then (fs.file_table idx).size - O else L)) 0 0) = _
    rw [hdoclamp]
  · have hbltake : (fs.file_table idx).blocks.take (fs.file_table idx).num_blocks
        = (fs.file_table idx).blocks := by
      rw [← e1]
      exact List.take_length _
    have hBS : BLOCK_SIZE = 512 := rfl
    have hpos : O % BLOCK_SIZE < BLOCK_SIZE := Nat.mod_lt _ (by decide)
    have hcapL : O % BLOCK_SIZE + ((fs.file_table idx).size - O)
        ≤ BLOCK_SIZE * (((fs.file_table idx).blocks.take
          (fs.file_table idx).num_blocks).drop (O / BLOCK_SIZE)).length := by
      rw [hbltake, List.length_drop, e1, hBS]
      rw [hBS] at e4
      have hdm := Nat.div_add_mod O 512
      have hml : O % 512 < 512 := Nat.mod_lt _ (by omega)
      omega
    exact read_loop_length _ fs.blocks (O % BLOCK_SIZE) _ hpos hcapL

lemma write_file_notfound (fs : FileSystem) (fname : String) (O : Nat) (data : List Nat)
    (hff : find_file fname fs = none) :
    write_file fname O data fs = (.error .notFound, fs) := by
  simp only [write_file]
  simp only [hff]

lemma write_loop_data_empty (store : Nat → Nat → Nat) (bl : List Nat) (pos : Nat) :
    write_loop store bl pos [] = (store, 0) := by
  cases bl
  · exact write_loop_nil_bl store pos []
  · exact write_loop_nil_data store _ _ pos

/-- Either `create_file` succeeds, or it fails leaving the state intact
(the rollback branch is unreachable under the invariant). -/
lemma create_cases (fs : FileSystem) (hwf : WF fs) (fname : String) (size : Nat) :
    (create_file fname size fs).1 = .ok () ∨
    (∃ e, (create_file fname size fs).1 = .error e
      ∧ (create_file fname size fs).2 = fs) := by
  simp only [create_file]
  split
  next => exact Or.inr ⟨_, rfl, rfl⟩
  next hname =>
    split
    next => exact Or.inr ⟨_, rfl, rfl⟩
    next hsz =>
      split
      next => exact Or.inr ⟨_, rfl, rfl⟩
      next hszmax =>
        split
        next => exact Or.inr ⟨_, rfl, rfl⟩
        next hex =>
          split
          next => exact Or.inr ⟨_, rfl, rfl⟩
          next hnumf =>
            split
            next => exact Or.inr ⟨_, rfl, rfl⟩
            next hcap =>
              split
              next => exact Or.inr ⟨_, rfl, rfl⟩
              next file_index hfind =>
                split
                next hlen =>
                  exfalso
                  have hBS : BLOCK_SIZE = 512 := rfl
                  have hn : 0 < (size + BLOCK_SIZE - 1) / BLOCK_SIZE := by
                    rw [hBS]
                    have h1 : (1:Nat) ≤ (size + 512 - 1) / 512 := by
                      apply (Nat.one_le_div_iff (by omega)).mpr
                      omega
                    omega
                  have hcap2 : fs.used_blocks + (size + BLOCK_SIZE - 1) / BLOCK_SIZE
                      ≤ MAX_BLOCKS := by omega
                  have hspec := allocate_spec fs _ hwf.used_eq hn hcap2
                  have hl := hspec.len
                  omega
                next hlen => exact Or.inl rfl

lemma write_cases (fs : FileSystem) (fname : String) (O : Nat) (data : List Nat) :
    (∃ r, (write_file fname O data fs).1 = .ok r)
      ∨ (write_file fname O data fs).2 = fs := by
  simp only [write_file]
  split
  next => exact Or.inr rfl
  next idx hfind =>
    split
    next => exact Or.inr rfl
    next =>
      split
      next => exact Or.inr rfl
      next => exact Or.inl ⟨_, rfl⟩

lemma delete_cases (fs : FileSystem) (fname : String) :
    (delete_file fname fs).1 = .ok () ∨ (delete_file fname fs).2 = fs := by
  simp only [delete_file]
  split
  next => exact Or.inr rfl
  next idx hfind => exact Or.inl rfl

/-- The write boundary check: `InvalidArgument` on the offset exactly
when `offset > size`. -/
lemma write_invalid_offset_iff (fs : FileSystem) (fname : String) (O : Nat)
    (data : List Nat) (idx : Nat) (hfind : find_file fname fs = some idx) :
    ((write_file fname O data fs).1 = .error .invalidOffset
      ↔ O > (fs.file_table idx).size) := by
  constructor
  · intro herr
    by_contra hno
    by_cases hbound : O + strLen data > (fs.file_table idx).size
    · rw [write_file_oob fs fname O data idx hfind hno hbound] at herr
      simp at herr
    · rw [write_file_eq_of fs fname O data idx hfind hno hbound] at herr
      simp at herr
  · intro hgt
    rw [write_file_invalid_offset fs fname O data idx hfind hgt]

/-- The read boundary check: `InvalidArgument` on the offset exactly
when `offset ≥ size` (for a nonzero request size). -/
lemma read_invalid_offset_iff (fs : FileSystem) (fname : String) (O L : Nat)
    (idx : Nat) (hL : ¬(L = 0)) (hfind : find_file fname fs = some idx) :
    ((read_file fname O L fs).1 = .error .invalidOffset
      ↔ O ≥ (fs.file_table idx).size) := by
  constructor
  · intro herr
    by_contra hno
    rw [read_file_eq_of fs fname O L idx hL hfind hno] at herr
    simp at herr
  · intro hge
    rw [read_file_invalid_offset fs fname O L idx hL hfind hge]

/-- A zero-length write at exactly end-of-file succeeds and changes
nothing. -/
lemma write_empty_at_eof (fs : FileSystem) (fname : String) (idx : Nat)
    (hfind : find_file fname fs = some idx) :
    (write_file fname (fs.file_table idx).size [] fs).1 = .ok (WriteResult.mk 0 0) ∧
    (write_file fname (fs.file_table idx).size [] fs).2 = fs := by
  have hoff : ¬((fs.file_table idx).size > (fs.file_table idx).size) := by omega
  have hbound : ¬((fs.file_table idx).size + strLen ([] : List Nat)
      > (fs.file_table idx).size) := by
    show ¬((fs.file_table idx).size + 0 > (fs.file_table idx).size)
    omega
  have heq := write_file_eq_of fs fname (fs.file_table idx).size [] idx hfind hoff hbound
  have htake0 : (([] : List Nat).take (strLen [])) = ([] : List Nat) := rfl
  rw [htake0] at heq
  rw [heq, write_loop_data_empty]
  exact ⟨rfl, rfl⟩

/-- `write_file` only looks at the data through `strlen`: replacing the
data by its prefix before the first zero byte changes nothing. -/
lemma write_file_strlen_eq (fname : String) (O : Nat) (data : List Nat)
    (fs : FileSystem) :
    write_file fname O data fs
      = write_file fname O (data.takeWhile (fun x => x != 0)) fs := by
  have hidem : (data.takeWhile (fun x => x != 0)).takeWhile (fun x => x != 0)
      = data.takeWhile (fun x => x != 0) :=
    takeWhile_nz_eq _ (fun x hx => by simpa using List.mem_takeWhile_imp hx)
  have hsl : strLen (data.takeWhile (fun x => x != 0)) = strLen data := by
    unfold strLen
    rw [hidem]
  have htk2 : (data.takeWhile (fun x => x != 0)).take (strLen data)
      = data.take (strLen data) := by
    rw [take_strLen data]
    exact List.take_length _
  simp only [write_file]
  simp only [hsl, htk2]

/-- `write_file` never stores a zero byte: every byte it changes is
nonzero. -/
lemma write_never_zero (fname : String) (O : Nat) (data : List Nat) (fs : FileSystem)
    (b p : Nat)
    (hne : (write_file fname O data fs).2.blocks b p ≠ fs.blocks b p) :
    (write_file fname O data fs).2.blocks b p ≠ 0 := by
  rcases hff : find_file fname fs with _ | idx
  · rw [write_file_notfound fs fname O data hff] at hne ⊢
    exact absurd rfl hne
  · by_cases hoff : O > (fs.file_table idx).size
    · rw [write_file_invalid_offset fs fname O data idx hff hoff] at hne ⊢
      exact absurd rfl hne
    · by_cases hbound : O + strLen data > (fs.file_table idx).size
      · rw [write_file_oob fs fname O data idx hff hoff hbound] at hne ⊢
        exact absurd rfl hne
      · rw [write_file_eq_of fs fname O data idx hff hoff hbound] at hne ⊢
        have hz : ∀ x ∈ data.take (strLen data), x ≠ 0 := by
          intro x hx
          rw [take_strLen data] at hx
          simpa using List.mem_takeWhile_imp hx
        have hne2 : (write_loop fs.blocks (((fs.file_table idx).blocks.take
            (fs.file_table idx).num_blocks).drop (O / BLOCK_SIZE)) (O % BLOCK_SIZE)
            (data.take (strLen data))).1 b p ≠ fs.blocks b p := hne
        exact write_loop_values _ fs.blocks _ _ hz b p hne2

lemma find?_congr {α : Type} (l : List α) (p q : α → Bool)
    (h : ∀ x ∈ l, p x = q x) : l.find? p = l.find? q := by
  induction l with
  | nil => rfl
  | cons a t ih =>
    simp only [List.find?]
    rw [h a (List.mem_cons_self a t)]
    cases q a with
    | true => rfl
    | false => exact ih fun x hx => h x (List.mem_cons_of_mem a hx)

lemma find_consecutive_eq_spec (m : Nat → Bool) (n : Nat) (hn : 0 < n) :
    find_consecutive m n = spec_first_run m n := by
  unfold find_consecutive spec_first_run
  refine find?_congr _ _ _ fun i _ => ?_
  cases hchk : seq_free_check m n i with
  | false => simp
  | true =>
    have hrun := (seq_free_check_iff m n i).mp hchk
    have hm : m i = false := by
      have := (hrun 0 hn).2
      simpa using this
    simp [hm]

/-! ## The claims -/

/-- C2: In every state reachable from `init_filesystem` by any sequence
of operations, the cached counters agree with a fresh recount: the sum
of `num_blocks` over in-use entries equals the number of occupied
entries of `block_map` and equals `used_blocks`; `num_files` equals the
number of in-use entries; and `total_storage` equals the sum of `size`
over in-use entries. -/
theorem counters_match_recount (fs : FileSystem) (hreach : Reachable fs) :
    live_blocks_sum fs = count_occupied fs.block_map ∧
    live_blocks_sum fs = fs.used_blocks ∧
    fs.num_files = live_count fs ∧
    fs.total_storage = live_size_sum fs := by
  have hwf := reachable_wf fs hreach
  refine ⟨?_, hwf.blocks_sum_eq, hwf.files_eq, hwf.storage_eq⟩
  rw [hwf.blocks_sum_eq, hwf.used_eq]

theorem counters_match_recount_witness :
    live_blocks_sum (run_ops [Op.create "a" 700])
        = count_occupied (run_ops [Op.create "a" 700]).block_map ∧
    live_blocks_sum (run_ops [Op.create "a" 700])
        = (run_ops [Op.create "a" 700]).used_blocks ∧
    (run_ops [Op.create "a" 700]).num_files = live_count (run_ops [Op.create "a" 700]) ∧
    (run_ops [Op.create "a" 700]).total_storage
        = live_size_sum (run_ops [Op.create "a" 700]) :=
  counters_match_recount (run_ops [Op.create "a" 700]) ⟨[Op.create "a" 700], rfl⟩

/-- C3: In every reachable state, no block index appears in the block
lists (the first `num_blocks` entries of `blocks`) of two distinct
in-use entries, and every listed block of an in-use entry is in range
and marked occupied in `block_map`. -/
theorem live_blocks_disjoint_occupied (fs : FileSystem) (i j b b2 : Nat)
    (hreach : Reachable fs)
    (hi : i < MAX_FILES) (hj : j < MAX_FILES) (hij : i ≠ j)
    (hui : (fs.file_table i).in_use = true) (huj : (fs.file_table j).in_use = true)
    (hbi : b ∈ (fs.file_table i).blocks.take (fs.file_table i).num_blocks)
    (hb2 : b2 ∈ (fs.file_table i).blocks.take (fs.file_table i).num_blocks) :
    b ∉ (fs.file_table j).blocks.take (fs.file_table j).num_blocks ∧
    b2 < MAX_BLOCKS ∧ fs.block_map b2 = true := by
  have hwf := reachable_wf fs hreach
  have e1i := (hwf.entries i hi hui).1
  have e1j := (hwf.entries j hj huj).1
  rw [← e1i, List.take_length] at hbi hb2
  refine ⟨?_, (hwf.entries i hi hui).2.2.1 b2 hb2⟩
  rw [← e1j, List.take_length]
  exact hwf.disjoint i j hi hj hij hui huj b hbi

/-- C1 (amended): for every file created with declared size `S` and every
nonempty zero-byte-free data of length `L` written at offset `O` with
`O + L ≤ S`, under a name short enough to survive `strncpy` truncation,
a subsequent read at offset `O` for `L` bytes returns exactly the
written data (as the `bytes` portion of the result), with no intervening
operation on the file.  The original unrestricted claim fails for data
containing a zero byte (the `char *` payload is `strlen`-delimited), for
`L = 0` (the read rejects a zero size), and for names of `MAX_FILENAME`
or more characters (truncation makes the later lookups miss). -/
theorem roundtrip_after_create_write (fs : FileSystem) (fname : String) (S O : Nat)
    (data : List Nat)
    (hreach : Reachable fs)
    (hname : fname.length ≤ MAX_FILENAME - 1)
    (hok : (create_file fname S fs).1 = .ok ())
    (hdata : ∀ x ∈ data, x ≠ 0)
    (hlen : 0 < data.length)
    (hbound : O + data.length ≤ S) :
    (write_file fname O data (create_file fname S fs).2).1
        = .ok (WriteResult.mk data.length 0) ∧
    (read_file fname O data.length
        ((write_file fname O data (create_file fname S fs).2).2)).1
      = .ok (ReadResult.mk data 0 0) :=
  create_write_read fs (reachable_wf fs hreach) fname S O data hname hok hdata
    hlen hbound

/-- C4: for `0 < n ≤ MAX_BLOCKS` and a state whose accounting invariant
holds with at least `n` blocks free in aggregate, `allocate_blocks n`
returns exactly `n` block indices: the first ascending run of `n`
consecutive free blocks if one exists, otherwise the first `n` free
blocks in ascending order (`spec_allocate`); it never fails merely
because no contiguous run exists. -/
theorem allocator_total_first_fit (fs : FileSystem) (n : Nat)
    (hacc : fs.used_blocks = count_occupied fs.block_map)
    (hn : 0 < n) (hmax : n ≤ MAX_BLOCKS)
    (hfree : fs.used_blocks + n ≤ MAX_BLOCKS) :
    (allocate_blocks n fs).1.length = n ∧
    (allocate_blocks n fs).1 = spec_allocate fs.block_map n := by
  have hspec := allocate_spec fs n hacc hn hfree
  refine ⟨hspec.len, ?_⟩
  have hg1 : ¬(n = 0 ∨ n > MAX_BLOCKS) := by omega
  have hg2 : ¬(fs.used_blocks + n > MAX_BLOCKS) := by omega
  unfold allocate_blocks spec_allocate
  rw [if_neg hg1, if_neg hg2, ← find_consecutive_eq_spec fs.block_map n hn]
  cases hfind : find_consecutive fs.block_map n with
  | some i => rfl
  | none =>
    have h1 := (alloc_scatter_spec (List.range MAX_BLOCKS)
      (List.nodup_range MAX_BLOCKS) n fs).1
    show (alloc_scatter (List.range MAX_BLOCKS) n fs).1
      = (spec_free_list fs.block_map).take n
    rw [h1]
    rfl

/-- C5: the end-of-file boundary checks of write and read are
asymmetric: for an existing file of size `S`, `write_file` at offset `O`
fails with the invalid-offset diagnostic exactly when `O > S` (so a
zero-byte write at `O = S` succeeds as a no-op leaving the state
untouched), whereas `read_file` (of a nonzero size) fails with the
invalid-offset diagnostic exactly when `O ≥ S`. -/
theorem eof_boundary_asymmetry (fs : FileSystem) (fname : String)
    (idx S O L : Nat) (data : List Nat)
    (hfind : find_file fname fs = some idx)
    (hS : (fs.file_table idx).size = S)
    (hL : 0 < L) :
    ((write_file fname O data fs).1 = .error .invalidOffset ↔ O > S) ∧
    ((write_file fname S [] fs).1 = .ok (WriteResult.mk 0 0)
      ∧ (write_file fname S [] fs).2 = fs) ∧
    ((read_file fname O L fs).1 = .error .invalidOffset ↔ O ≥ S) := by
  subst hS
  exact ⟨write_invalid_offset_iff fs fname O data idx hfind,
    write_empty_at_eof fs fname idx hfind,
    read_invalid_offset_iff fs fname O L idx (by omega) hfind⟩

/-- C6: in a reachable state, every failing operation leaves the whole
filesystem state exactly as it was before the call: a failing create
(including the rollback path, unreachable under the invariant) releases
every tentatively marked block, and failing write/read/delete change
nothing. -/
theorem failing_ops_preserve_state (fs : FileSystem)
    (nc nw nr nd : String) (sc ow orr sr : Nat) (dw : List Nat)
    (ec : CreateErr) (ew : WriteErr) (er : ReadErr) (ed : DeleteErr)
    (hreach : Reachable fs)
    (hc : (create_file nc sc fs).1 = .error ec)
    (hw : (write_file nw ow dw fs).1 = .error ew)
    (hr : (read_file nr orr sr fs).1 = .error er)
    (hd : (delete_file nd fs).1 = .error ed) :
    (create_file nc sc fs).2 = fs ∧ (write_file nw ow dw fs).2 = fs ∧
    (read_file nr orr sr fs).2 = fs ∧ (delete_file nd fs).2 = fs := by
  have hwf := reachable_wf fs hreach
  refine ⟨?_, ?_, read_state nr orr sr fs, ?_⟩
  · rcases create_cases fs hwf nc sc with hok | ⟨e2, herr2, hstate⟩
    · rw [hok] at hc
      simp at hc
    · exact hstate
  · rcases write_cases fs nw ow dw with ⟨r, hok⟩ | hstate
    · rw [hok] at hw
      simp at hw
    · exact hstate
  · rcases delete_cases fs nd with hok | hstate
    · rw [hok] at hd
      simp at hd
    · exact hstate

/-- C7: on every successful `write_file` in a reachable state, the
result reports the number of bytes written, and for data without an
embedded zero byte (the only payloads a C string can denote in full)
that number equals both the C-string length and the length of the
supplied data. -/
theorem write_reports_data_length (fs : FileSystem) (fname : String) (offset : Nat)
    (data : List Nat) (res : WriteResult)
    (hreach : Reachable fs)
    (hz : (0:Nat) ∉ data)
    (hok : (write_file fname offset data fs).1 = .ok res) :
    res.bytes_written = strLen data ∧ res.bytes_written = data.length := by
  have h1 := write_ok_count fs (reachable_wf fs hreach) fname offset data res hok
  refine ⟨h1, ?_⟩
  rw [h1]
  exact strLen_eq_length data (fun x hx hx0 => hz (hx0 ▸ hx))

/-- C8 (amended): a read at a valid offset `O` requesting more than
`size - O` bytes succeeds with the request silently clamped, producing
exactly `size - O` bytes; but the caller is told the count only through
the NUL terminator appended at `buffer[bytes_read]` (the `terminator`
field, 0) — the C return value is 0 on success, not the byte count.  The
original claim that the count is conveyed "by the returned length and
not by an implicitly appended null/sentinel byte" is false of the code
(line 391 appends the sentinel; line 395 returns 0). -/
theorem clamped_read_length (fs : FileSystem) (fname : String) (O L idx : Nat)
    (hreach : Reachable fs)
    (hfind : find_file fname fs = some idx)
    (hOlt : O < (fs.file_table idx).size)
    (hclamp : (fs.file_table idx).size < O + L) :
    (read_file fname O L fs).1 = .ok (ReadResult.mk (read_loop fs.blocks
      (((fs.file_table idx).blocks.take (fs.file_table idx).num_blocks).drop
        (O / BLOCK_SIZE)) (O % BLOCK_SIZE) ((fs.file_table idx).size - O)) 0 0) ∧
    (read_loop fs.blocks (((fs.file_table idx).blocks.take
      (fs.file_table idx).num_blocks).drop (O / BLOCK_SIZE)) (O % BLOCK_SIZE)
      ((fs.file_table idx).size - O)).length = (fs.file_table idx).size - O :=
  read_ok_clamped fs (reachable_wf fs hreach) fname O L idx hfind hOlt hclamp

/-- C9: every block `free_blocks` actually frees ends up with all bytes
zero; in every reachable state every unoccupied block's content is all
zeros; and a freshly created file reads back as zero bytes before its
first write. -/
theorem freed_blocks_zeroed (fs : FileSystem) (fname : String)
    (S O L nb b b2 p p2 : Nat) (bl : List Nat)
    (hreach : Reachable fs)
    (hname : fname.length ≤ MAX_FILENAME - 1)
    (hok : (create_file fname S fs).1 = .ok ())
    (hL : 0 < L) (hbound : O + L ≤ S)
    (hfreeb : fs.block_map b = false)
    (hmem : b2 ∈ bl.take nb) (hocc : fs.block_map b2 = true) :
    fs.blocks b p = 0 ∧
    (free_blocks nb bl fs).blocks b2 p2 = 0 ∧
    (read_file fname O L (create_file fname S fs).2).1
      = .ok (ReadResult.mk (List.replicate L 0) 0 0) := by
  have hwf := reachable_wf fs hreach
  refine ⟨hwf.free_zero b hfreeb p, ?_,
    create_read_zeros fs hwf fname S O L hname hok hL hbound⟩
  unfold free_blocks
  exact free_fold_zeroes (bl.take nb) fs b2 hmem (hwf.map_lt b2 hocc) hocc p2

/-- C10: `write_file` determines the length of its payload from the
first zero byte (`strlen`): the call behaves exactly as if handed the
prefix before the first zero, and every byte it changes in storage is
nonzero, so a zero byte can never be stored through `write_file`. -/
theorem write_strlen_semantics (fname : String) (O : Nat) (data : List Nat)
    (fs : FileSystem) (b p : Nat)
    (hz : (0:Nat) ∈ data) :
    write_file fname O data fs
      = write_file fname O (data.takeWhile (fun x => x != 0)) fs ∧
    ((write_file fname O data fs).2.blocks b p = fs.blocks b p ∨
      (write_file fname O data fs).2.blocks b p ≠ 0) := by
  refine ⟨write_file_strlen_eq fname O data fs, ?_⟩
  by_cases h : (write_file fname O data fs).2.blocks b p = fs.blocks b p
  · exact Or.inl h
  · exact Or.inr (write_never_zero fname O data fs b p h)

set_option maxRecDepth 8000

set_option maxHeartbeats 2000000

/-- Witness for C1 at a concrete instance: create "f" of size 10 in the
initial state, write [1, 2, 3] at offset 2, read it back. -/
theorem roundtrip_after_create_write_witness :
    (write_file "f" 2 [1, 2, 3] (create_file "f" 10 (run_ops [])).2).1
        = .ok (WriteResult.mk ([1, 2, 3] : List Nat).length 0) ∧
    (read_file "f" 2 ([1, 2, 3] : List Nat).length
        ((write_file "f" 2 [1, 2, 3] (create_file "f" 10 (run_ops [])).2).2)).1
      = .ok (ReadResult.mk [1, 2, 3] 0 0) :=
  roundtrip_after_create_write (run_ops []) "f" 10 2 [1, 2, 3]
    ⟨[], rfl⟩ (by decide) (by rfl) (by decide) (by decide) (by decide)

/-- Counterexample to the original, unrestricted C1: writing
[65, 0, 66] (length 3) at offset 0 into a fresh file of size 10
satisfies O + L ≤ S, yet only one byte is written (strlen stops at the
embedded zero) and the read-back is [65, 0, 0] ≠ [65, 0, 66]. -/
theorem roundtrip_after_create_write_counterexample :
    (create_file "f" 10 (run_ops [])).1 = .ok () ∧
    (write_file "f" 0 [65, 0, 66] (create_file "f" 10 (run_ops [])).2).1
      = .ok (WriteResult.mk 1 0) ∧
    (read_file "f" 0 3 ((write_file "f" 0 [65, 0, 66]
        (create_file "f" 10 (run_ops [])).2).2)).1
      = .ok (ReadResult.mk [65, 0, 0] 0 0) ∧
    ReadResult.mk ([65, 0, 0] : List Nat) 0 0
      ≠ ReadResult.mk ([65, 0, 66] : List Nat) 0 0 :=
  ⟨by rfl, by rfl, by rfl, by decide⟩

/-- Witness for C3 at a concrete instance: after creating two files of
600 bytes each, entry 1's block list avoids block 0 (owned by entry 0),
and block 0 is marked occupied. -/
theorem live_blocks_disjoint_occupied_witness :
    (0:Nat) ∉ ((run_ops [Op.create "a" 600, Op.create "b" 600]).file_table 1).blocks.take
      ((run_ops [Op.create "a" 600, Op.create "b" 600]).file_table 1).num_blocks ∧
    (0:Nat) < MAX_BLOCKS ∧
    (run_ops [Op.create "a" 600, Op.create "b" 600]).block_map 0 = true :=
  live_blocks_disjoint_occupied (run_ops [Op.create "a" 600, Op.create "b" 600])
    0 1 0 0 ⟨[Op.create "a" 600, Op.create "b" 600], rfl⟩
    (by decide) (by decide) (by decide) (by decide) (by decide) (by decide)
    (by decide)

/-- Witness for C4 at a concrete instance: allocating 1 block in the
initial state. -/
theorem allocator_total_first_fit_witness :
    (allocate_blocks 1 (run_ops [])).1.length = 1 ∧
    (allocate_blocks 1 (run_ops [])).1 = spec_allocate (run_ops []).block_map 1 :=
  allocator_total_first_fit (run_ops []) 1
    ((reachable_wf (run_ops []) ⟨[], rfl⟩).used_eq) (by decide) (by decide)
    (by decide)

/-- Witness for C5 at a concrete instance: file "f" of size 10; write at
offset 10 is not an invalid-offset error, an empty write at 10 is an
exact no-op, and a read at offset 10 is an invalid-offset error. -/
theorem eof_boundary_asymmetry_witness :
    ((write_file "f" 10 [7] (run_ops [Op.create "f" 10])).1
        = .error .invalidOffset ↔ 10 > 10) ∧
    ((write_file "f" 10 [] (run_ops [Op.create "f" 10])).1
        = .ok (WriteResult.mk 0 0)
      ∧ (write_file "f" 10 [] (run_ops [Op.create "f" 10])).2
        = run_ops [Op.create "f" 10]) ∧
    ((read_file "f" 10 1 (run_ops [Op.create "f" 10])).1
        = .error .invalidOffset ↔ 10 ≥ 10) :=
  eof_boundary_asymmetry (run_ops [Op.create "f" 10]) "f" 0 10 10 1 [7]
    (by rfl) (by rfl) (by decide)

/-- Witness for C6 at a concrete instance: in the initial state, a
zero-size create and write/read/delete on an absent name all fail and
all leave the state unchanged. -/
theorem failing_ops_preserve_state_witness :
    (create_file "c" 0 (run_ops [])).2 = run_ops [] ∧
    (write_file "w" 0 [1] (run_ops [])).2 = run_ops [] ∧
    (read_file "r" 0 1 (run_ops [])).2 = run_ops [] ∧
    (delete_file "d" (run_ops [])).2 = run_ops [] :=
  failing_ops_preserve_state (run_ops []) "c" "w" "r" "d" 0 0 0 1 [1]
    CreateErr.invalidSize WriteErr.notFound ReadErr.notFound DeleteErr.notFound
    ⟨[], rfl⟩ (by rfl) (by rfl) (by rfl) (by rfl)

/-- Witness for C7 at a concrete instance: writing [1, 2, 3] at offset 0
into a fresh 10-byte file reports 3 bytes written. -/
theorem write_reports_data_length_witness :
    (WriteResult.mk 3 0).bytes_written = strLen [1, 2, 3] ∧
    (WriteResult.mk 3 0).bytes_written = ([1, 2, 3] : List Nat).length :=
  write_reports_data_length (run_ops [Op.create "f" 10]) "f" 0 [1, 2, 3]
    (WriteResult.mk 3 0) ⟨[Op.create "f" 10], rfl⟩ (by decide) (by rfl)

/-- Witness for C8 at a concrete instance: file "f" holds the ten bytes
48..57; a read at offset 5 requesting 100 bytes is clamped to 5. -/
theorem clamped_read_length_witness :
    (read_file "f" 5 100
        (run_ops [Op.create "f" 10,
          Op.write "f" 0 [48, 49, 50, 51, 52, 53, 54, 55, 56, 57]])).1
      = .ok (ReadResult.mk (read_loop
          (run_ops [Op.create "f" 10,
            Op.write "f" 0 [48, 49, 50, 51, 52, 53, 54, 55, 56, 57]]).blocks
          ((((run_ops [Op.create "f" 10,
              Op.write "f" 0 [48, 49, 50, 51, 52, 53, 54, 55, 56, 57]]).file_table 0).blocks.take
            ((run_ops [Op.create "f" 10,
              Op.write "f" 0 [48, 49, 50, 51, 52, 53, 54, 55, 56, 57]]).file_table 0).num_blocks).drop
            (5 / BLOCK_SIZE)) (5 % BLOCK_SIZE)
          (((run_ops [Op.create "f" 10,
            Op.write "f" 0 [48, 49, 50, 51, 52, 53, 54, 55, 56, 57]]).file_table 0).size - 5)) 0 0) ∧
    (read_loop
        (run_ops [Op.create "f" 10,
          Op.write "f" 0 [48, 49, 50, 51, 52, 53, 54, 55, 56, 57]]).blocks
        ((((run_ops [Op.create "f" 10,
            Op.write "f" 0 [48, 49, 50, 51, 52, 53, 54, 55, 56, 57]]).file_table 0).blocks.take
          ((run_ops [Op.create "f" 10,
            Op.write "f" 0 [48, 49, 50, 51, 52, 53, 54, 55, 56, 57]]).file_table 0).num_blocks).drop
          (5 / BLOCK_SIZE)) (5 % BLOCK_SIZE)
        (((run_ops [Op.create "f" 10,
          Op.write "f" 0 [48, 49, 50, 51, 52, 53, 54, 55, 56, 57]]).file_table 0).size - 5)).length
      = ((run_ops [Op.create "f" 10,
          Op.write "f" 0 [48, 49, 50, 51, 52, 53, 54, 55, 56, 57]]).file_table 0).size - 5 :=
  clamped_read_length
    (run_ops [Op.create "f" 10,
      Op.write "f" 0 [48, 49, 50, 51, 52, 53, 54, 55, 56, 57]])
    "f" 5 100 0
    ⟨[Op.create "f" 10, Op.write "f" 0 [48, 49, 50, 51, 52, 53, 54, 55, 56, 57]],
      rfl⟩
    (by rfl) (by decide) (by decide)

/-- Counterexample to the original C8: the clamped read of 5 bytes
succeeds with bytes [53, 54, 55, 56, 57], but the result's integer
return value is 0, not the byte count — the count reaches the caller
via the appended NUL sentinel, not a returned length. -/
theorem clamped_read_length_counterexample :
    (read_file "f" 5 100
        (run_ops [Op.create "f" 10,
          Op.write "f" 0 [48, 49, 50, 51, 52, 53, 54, 55, 56, 57]])).1
      = .ok (ReadResult.mk [53, 54, 55, 56, 57] 0 0) ∧
    (ReadResult.mk ([53, 54, 55, 56, 57] : List Nat) 0 0).retval
      ≠ ((ReadResult.mk ([53, 54, 55, 56, 57] : List Nat) 0 0).bytes.length : Int) :=
  ⟨by rfl, by decide⟩

/-- Witness for C9 at a concrete instance: after creating a 600-byte
file, free block 5 is all zeros; freeing the singleton list [0] zeroes
block 0; a fresh 10-byte file "f" reads back as three zero bytes. -/
theorem freed_blocks_zeroed_witness :
    (run_ops [Op.create "a" 600]).blocks 5 0 = 0 ∧
    (free_blocks 1 [0] (run_ops [Op.create "a" 600])).blocks 0 0 = 0 ∧
    (read_file "f" 0 3 (create_file "f" 10 (run_ops [Op.create "a" 600])).2).1
      = .ok (ReadResult.mk (List.replicate 3 0) 0 0) :=
  freed_blocks_zeroed (run_ops [Op.create "a" 600]) "f" 10 0 3 1 5 0 0 0 [0]
    ⟨[Op.create "a" 600], rfl⟩ (by decide) (by rfl) (by decide) (by decide)
    (by rfl) (by decide) (by rfl)

/-- Witness for C10 at a concrete instance: writing [65, 0, 66] behaves
exactly like writing [65], and block 0 byte 0 either kept its old value
or is nonzero. -/
theorem write_strlen_semantics_witness :
    write_file "f" 0 [65, 0, 66] (run_ops [Op.create "f" 10])
      = write_file "f" 0 (([65, 0, 66] : List Nat).takeWhile (fun x => x != 0))
          (run_ops [Op.create "f" 10]) ∧
    ((write_file "f" 0 [65, 0, 66] (run_ops [Op.create "f" 10])).2.blocks 0 0
        = (run_ops [Op.create "f" 10]).blocks 0 0 ∨
      (write_file "f" 0 [65, 0, 66] (run_ops [Op.create "f" 10])).2.blocks 0 0
        ≠ 0) :=
  write_strlen_semantics "f" 0 [65, 0, 66] (run_ops [Op.create "f" 10]) 0 0
    (by decide)
